import Mathlib

/-!
Verification development for the mieliepit interpreter
(src/mieliepit.hpp, src/mieliepit.cpp, hosted 64-bit variant).

Modelling conventions:
* a machine word (`number_t`) is a `Nat` below `2^64`; the unsigned view
  `pos` is the `Nat` itself and the signed view `sign` is `toSign`;
* the stack is a `List Nat` whose head is the top of the stack
  (`stack_peek stack n = stack.get n`);
* the code buffer is a `List Val` appended at the back;
* console output is accumulated in the `out : String` field;
* a result of `none : Option _` models C++ undefined behaviour or an
  aborted `assert`: an unchecked `pop` on an empty vector, a failed
  `assert(...)`, an out-of-bounds read, a dereferenced machine address,
  or fuel exhaustion of a loop (divergence);
* recursive interpreter loops take an explicit fuel argument; all
  concrete evaluations use a sufficient fuel.
-/

namespace Mieliepit

/-- The 64-bit machine word modulus. -/
def W : Nat := 2 ^ 64

/-- Signed (two's-complement) view of a machine word: `number_t.sign`. -/
def toSign (p : Nat) : Int :=
  if p < 2 ^ 63 then (p : Int) else (p : Int) - (2 ^ 64 : Int)

/-- Unsigned bit-pattern of a signed value: stores an `Int` back into the
`pos` view of a `number_t` (two's complement, modulo `2^64`). -/
def toPos (i : Int) : Nat := (i % (2 ^ 64 : Int)).toNat

/-- The primitive words, in the exact order of the `primitives` table of
src/mieliepit.cpp (the `PW_*` enumerators). -/
inductive PW where
  | showStack | stackLen | dup | swap | rot | unrot | rev | drop
  | revN | nth
  | inc | dec | add | mul | div
  | shl | shr | or | and | xor | not
  | eq | lt
  | tru | fls
  | print | pstr
  | printString
  | exit | quit
  | scList | primList | wordList | guide
deriving DecidableEq, Repr

/-- The syntax forms, in the exact order of the `syntax` table of
src/mieliepit.cpp (the `SC_*` enumerators). -/
inductive SC where
  | str | hex | shortStr
  | help | defn
  | comment | recf | ret | skip | wordDef | repAnd | rep | block
deriving DecidableEq, Repr

/-- The runner-synthesised raw-function opcodes of src/mieliepit.cpp
(`print_raw`, `print_definition_rf`, `recurse`, `return_rf`, `skip`,
`rep_and`). -/
inductive RF where
  | printRaw | printDef | recurse | returnRf | skip | repAnd
deriving DecidableEq, Repr

/-- A code cell (`struct Value` of src/mieliepit.hpp). The source stores
table indices in `word_idx` / `primitive_idx` / `syntax_idx`; primitives
and syntax forms are written with their enumerators (`PW_*`, `SC_*`),
mirroring `Value::new_primitive(PW_Drop)` etc. in the source.
`numAddr s` is a `Number` cell whose payload is the machine address of
the NUL-terminated string `s` (emitted by `compile_help` /
`compile_def`); the address value itself is not modelled. -/
inductive Val where
  | word (idx : Nat)
  | prim (p : PW)
  | syn (sc : SC)
  | num (pos : Nat)
  | numAddr (s : String)
  | rf (f : RF)
deriving DecidableEq, Repr

/-- A user word entry (`struct Word`): the name and description arenas of
`ProgramState` are abstracted to `String`s (the hosted variant's storage
grows, so the capacity asserts of `define_word` never fire). -/
structure Wd where
  name : String
  desc : String
  code_pos : Nat
  code_len : Nat
deriving DecidableEq, Repr

/-- The interpreter state (`struct ProgramState`), with an output
accumulator `out` standing for stdout and `shouldQuit` for the
`should_quit` flag of the host loop. -/
structure PState where
  stack : List Nat
  code : List Val
  error : Option String
  errorHandled : Bool
  words : List Wd
  out : String
  shouldQuit : Bool
deriving DecidableEq, Repr

/-- A fresh program state (no prelude loaded). -/
def initPS : PState :=
  { stack := [], code := [], error := none, errorHandled := false,
    words := [], out := "", shouldQuit := false }

/-- Latch an error (`state.error = msg; state.error_handled = false`). -/
def setErr (st : PState) (msg : String) : PState :=
  { st with error := some msg, errorHandled := false }

/-- The `name` field of each primitive table entry. -/
def pwName : PW → String
  | .showStack => "."
  | .stackLen => "stack_len"
  | .dup => "dup"
  | .swap => "swap"
  | .rot => "rot"
  | .unrot => "unrot"
  | .rev => "rev"
  | .drop => "drop"
  | .revN => "rev_n"
  | .nth => "nth"
  | .inc => "inc"
  | .dec => "dec"
  | .add => "+"
  | .mul => "*"
  | .div => "/"
  | .shl => "shl"
  | .shr => "shr"
  | .or => "or"
  | .and => "and"
  | .xor => "xor"
  | .not => "not"
  | .eq => "="
  | .lt => "<"
  | .tru => "true"
  | .fls => "false"
  | .print => "print"
  | .pstr => "pstr"
  | .printString => "print_string"
  | .exit => "exit"
  | .quit => "quit"
  | .scList => "syntax"
  | .primList => "primitives"
  | .wordList => "words"
  | .guide => "guide"

/-- The `desc` field of each primitive table entry. -/
def pwDesc : PW → String
  | .showStack => "-- ; shows the top 16 elements of the stack"
  | .stackLen => "-- a ; pushes length of stack"
  | .dup => "a -- a a"
  | .swap => "a b -- b a"
  | .rot => "a b c -- b c a"
  | .unrot => "a b c -- c a b"
  | .rev => "a b c -- c b a"
  | .drop => "a --"
  | .revN => "... n -- ... ; reverse the top n elements"
  | .nth => "... n -- ... x ; dup the nth element down to the top"
  | .inc => "a -- a+1"
  | .dec => "a -- a-1"
  | .add => "a b -- a+b"
  | .mul => "a b -- a*b"
  | .div => "a b -- a/b"
  | .shl => "a b -- a<<b"
  | .shr => "a b -- a>>b"
  | .or => "a b -- a|b"
  | .and => "a b -- a&b"
  | .xor => "a b -- a^b"
  | .not => "a -- ~a"
  | .eq => "a b -- a=b"
  | .lt => "a b -- a<b"
  | .tru => "-- -1"
  | .fls => "-- 0"
  | .print => "a -- ; prints top element of stack as a signed number"
  | .pstr => "a -- ; prints top element as string of at most four characters"
  | .printString => "... n -- ; prints a string of length n"
  | .exit => "-- ; exits the mieliepit interpreter"
  | .quit => "-- ; exits the mieliepit interpreter"
  | .scList => "-- ; prints a list of all available syntax items"
  | .primList => "-- ; prints a list of all available primitive words"
  | .wordList => "-- ; prints a list of all user-defined words"
  | .guide => "-- ; prints usage guide for the mieliepit interpreter"

/-- The primitive table in source order. -/
def pwTable : List PW :=
  [.showStack, .stackLen, .dup, .swap, .rot, .unrot, .rev, .drop,
   .revN, .nth, .inc, .dec, .add, .mul, .div,
   .shl, .shr, .or, .and, .xor, .not, .eq, .lt, .tru, .fls,
   .print, .pstr, .printString, .exit, .quit,
   .scList, .primList, .wordList, .guide]

/-- The `name` field of each Syntax table entry. -/
def scName : SC → String
  | .str => "\""
  | .hex => "hex"
  | .shortStr => String.mk [Char.ofNat 39]
  | .help => "help"
  | .defn => "def"
  | .comment => "("
  | .recf => "rec"
  | .ret => "ret"
  | .skip => "?"
  | .wordDef => ":"
  | .repAnd => "rep_and"
  | .rep => "rep"
  | .block => "["

/-- The `desc` field of each Syntax table entry. -/
def scDesc : SC → String
  | .str => "-- ... n ; pushes a string to the top of the stack (data then length)"
  | .hex => "-- a ; interprets next word as hex number and pushes it"
  | .shortStr => "-- a ; interprets next word as short (<= 4 long) string and pushes it"
  | .help => "-- ; prints help text for the next word"
  | .defn => "-- ; prints the definition of a given word"
  | .comment => "-- ; begins a ( comment )"
  | .recf => "-- ; recurses (runs the current word from the start)"
  | .ret => "-- ; returns (exits the current word early)"
  | .skip => "a -- ; only executes the next word if the stack top is nonzero"
  | .wordDef => "-- ; begins a user-supplied word definition"
  | .repAnd => "n -- ??? n ; repeat the next word n times, and push n to the stack"
  | .rep => "n -- ??? ; repeat the next word n times"
  | .block => "-- ; begins a [ block ], treated as one unit by ?, rep, etc"

/-- The Syntax table in source order. -/
def scTable : List SC :=
  [.str, .hex, .shortStr, .help, .defn,
   .comment, .recf, .ret, .skip, .wordDef, .repAnd, .rep, .block]

/-- The `name` field of each RawFunction value. -/
def rfName : RF → String
  | .printRaw => "<internal:print_raw>"
  | .printDef => "<internal:print_definition>"
  | .recurse => "rec"
  | .returnRf => "ret"
  | .skip => "?"
  | .repAnd => "rep_and"

/-- Stack-underflow error text produced by `check_stack_len_ge(fun, expr)`:
`"Error in `fun`: stack length should be >= expr"` (with `expr`
stringised literally, so `rev_n` and `nth` report the literal text
`n`). -/
def underflowMsg (fn : String) (bound : String) : String :=
  "Error in `" ++ fn ++ "`: stack length should be >= " ++ bound

/-- The little-endian bytes of one machine word, least significant
first, 8 bytes (`sizeof(size_t)` on the hosted variant). -/
def wordBytes (x : Nat) : List Nat :=
  [x % 256, x / 2 ^ 8 % 256, x / 2 ^ 16 % 256, x / 2 ^ 24 % 256,
   x / 2 ^ 32 % 256, x / 2 ^ 40 % 256, x / 2 ^ 48 % 256, x / 2 ^ 56 % 256]

/-- Print bytes as characters until the first NUL, as `pstr` does over
one word (the loop `if (str[i] == 0) break; writechar(str[i]);`). -/
def bytesUntilNul : List Nat → List Nat
  | [] => []
  | b :: rest => if b = 0 then [] else b :: bytesUntilNul rest

/-- Whether a NUL byte occurs in the byte list. -/
def hasNul (l : List Nat) : Bool := l.any (fun b => b = 0)

/-- Render a byte list as a string. -/
def bytesToString (l : List Nat) : String :=
  String.mk (l.map Char.ofNat)

/-- Output for the `.` primitive body: the shown window, deepest shown
element first (the source loop `size_t i = amt; while (i --> 0)` prints
`stack_peek(i)` for `i = amt-1, ..., 0`). -/
def showStackStr (stack : List Nat) : String :=
  if stack.length = 0 then "empty.\n"
  else
    let amt := min stack.length 16
    let pref := if stack.length > 16 then "... " else ""
    pref ++
      String.join (((stack.take amt).reverse).map
        (fun x => toString (toSign x) ++ " ")) ++ "\n"

/-- Output of the `words` primitive: names newest first, separated by
single spaces, then a newline. -/
def wordsListStr (ws : List Wd) : String :=
  String.join (((ws.reverse).map Wd.name).intersperse " ") ++ "\n"

/-- Output of the `primitives` / `syn`-listing primitives: names in table
order, separated by single spaces, then a newline. -/
def tableListStr (names : List String) : String :=
  String.join (names.intersperse " ") ++ "\n"

/-- The built-in guide text (`guide_text` of src/mieliepit.cpp),
abbreviated to its first line; only its presence matters to any claim,
never its contents. -/
def guideText : String :=
  "Mieliepit is a stack-based programming language.\n"

/-- One primitive call (`primitives[p].fun(state)`), translated case by
case from the table in src/mieliepit.cpp. `none` models C++ undefined
behaviour (division by zero, `INT64_MIN / -1`, the out-of-bounds
`stack_peek` of `print_string` with `n = 0`, or `print_string` reading
past the stack buffer when no NUL terminator is found). -/
def runPrim (p : PW) (st : PState) : Option PState :=
  match p with
  | .showStack => some { st with out := st.out ++ showStackStr st.stack }
  | .stackLen => some { st with stack := st.stack.length :: st.stack }
  | .dup =>
      match st.stack with
      | [] => some (setErr st (underflowMsg "dup" "1"))
      | x :: s => some { st with stack := x :: x :: s }
  | .swap =>
      match st.stack with
      | t :: u :: s => some { st with stack := u :: t :: s }
      | _ => some (setErr st (underflowMsg "swap" "2"))
  | .rot =>
      match st.stack with
      | c :: b :: a :: s => some { st with stack := a :: c :: b :: s }
      | _ => some (setErr st (underflowMsg "rot" "3"))
  | .unrot =>
      match st.stack with
      | c :: b :: a :: s => some { st with stack := b :: a :: c :: s }
      | _ => some (setErr st (underflowMsg "rot" "3"))
  | .rev =>
      match st.stack with
      | c :: b :: a :: s => some { st with stack := a :: b :: c :: s }
      | _ => some (setErr st (underflowMsg "rev" "3"))
  | .drop =>
      match st.stack with
      | [] => some (setErr st (underflowMsg "drop" "1"))
      | _ :: s => some { st with stack := s }
  | .revN =>
      match st.stack with
      | [] => some (setErr st (underflowMsg "rev_n" "1"))
      | n :: s =>
          if s.length < n then some (setErr { st with stack := s } (underflowMsg "rot_n" "n"))
          else some { st with stack := (s.take n).reverse ++ s.drop n }
  | .nth =>
      match st.stack with
      | [] => some (setErr st (underflowMsg "nth" "1"))
      | n :: s =>
          if s.length < n then some (setErr { st with stack := s } (underflowMsg "nth" "n"))
          else if n = 0 then some (setErr { st with stack := s } "Error in `nth`: n must be nonzero")
          else
            match s.get? (n - 1) with
            | some x => some { st with stack := x :: s }
            | none => none
  | .inc =>
      match st.stack with
      | [] => some (setErr st (underflowMsg "inc" "1"))
      | x :: s => some { st with stack := ((x + 1) % W) :: s }
  | .dec =>
      match st.stack with
      | [] => some (setErr st (underflowMsg "dec" "1"))
      | x :: s => some { st with stack := ((x + (W - 1)) % W) :: s }
  | .add =>
      match st.stack with
      | b :: a :: s => some { st with stack := ((b + a) % W) :: s }
      | _ => some (setErr st (underflowMsg "+" "2"))
  | .mul =>
      match st.stack with
      | b :: a :: s => some { st with stack := toPos (toSign b * toSign a) :: s }
      | _ => some (setErr st (underflowMsg "*" "2"))
  | .div =>
      match st.stack with
      | b :: a :: s =>
          if toSign b = 0 then none
          else if toSign a = -(2 ^ 63 : Int) ∧ toSign b = -1 then none
          else some { st with stack := toPos (Int.tdiv (toSign a) (toSign b)) :: s }
      | _ => some (setErr st (underflowMsg "/" "2"))
  | .shl =>
      match st.stack with
      | b :: a :: s =>
          if b ≥ 32 then some { st with stack := 0 :: s }
          else some { st with stack := (a * 2 ^ b % W) :: s }
      | _ => some (setErr st (underflowMsg "shl" "2"))
  | .shr =>
      match st.stack with
      | b :: a :: s =>
          if b ≥ 32 then some { st with stack := 0 :: s }
          else some { st with stack := (a / 2 ^ b) :: s }
      | _ => some (setErr st (underflowMsg "shr" "2"))
  | .or =>
      match st.stack with
      | b :: a :: s => some { st with stack := Nat.lor b a :: s }
      | _ => some (setErr st (underflowMsg "or" "2"))
  | .and =>
      match st.stack with
      | b :: a :: s => some { st with stack := Nat.land b a :: s }
      | _ => some (setErr st (underflowMsg "and" "2"))
  | .xor =>
      match st.stack with
      | b :: a :: s => some { st with stack := Nat.xor b a :: s }
      | _ => some (setErr st (underflowMsg "xor" "2"))
  | .not =>
      match st.stack with
      | [] => some (setErr st (underflowMsg "not" "1"))
      | x :: s => some { st with stack := ((W - 1) - x) :: s }
  | .eq =>
      match st.stack with
      | b :: a :: s =>
          some { st with stack := (if b = a then W - 1 else 0) :: s }
      | _ => some (setErr st (underflowMsg "=?" "2"))
  | .lt =>
      match st.stack with
      | b :: a :: s =>
          some { st with stack := (if toSign a < toSign b then W - 1 else 0) :: s }
      | _ => some (setErr st (underflowMsg "=?" "2"))
  | .tru => some { st with stack := (W - 1) :: st.stack }
  | .fls => some { st with stack := 0 :: st.stack }
  | .print =>
      match st.stack with
      | [] => some (setErr st (underflowMsg "print" "1"))
      | x :: s =>
          some { st with stack := s, out := st.out ++ toString (toSign x) ++ " " }
  | .pstr =>
      match st.stack with
      | [] => some (setErr st (underflowMsg "pstr" "1"))
      | x :: s =>
          some { st with stack := s, out := st.out ++ bytesToString (bytesUntilNul (wordBytes x)) }
  | .printString =>
      match st.stack with
      | [] => some (setErr st (underflowMsg "print_string" "1"))
      | n :: s =>
          if s.length < n then
            some (setErr { st with stack := s } (underflowMsg "print_string" "n"))
          else if n = 0 then none
          else
            let bytes := (((s.take n).reverse).map wordBytes).flatten
            if hasNul bytes then
              some { st with stack := s.drop n, out := st.out ++ bytesToString (bytesUntilNul bytes) }
            else none
  | .exit => some { st with shouldQuit := true }
  | .quit => some { st with shouldQuit := true }
  | .scList =>
      some { st with out := st.out ++ tableListStr (scTable.map scName) }
  | .primList =>
      some { st with out := st.out ++ tableListStr (pwTable.map pwName) }
  | .wordList =>
      some { st with out := st.out ++ wordsListStr st.words }
  | .guide => some { st with out := st.out ++ guideText }

/-- The interpreter / scanner state (`struct Interpreter` of
src/mieliepit.hpp). The source keeps a pointer `line` that advances and a
remaining length `len`; here the full line is kept and `pos` counts the
characters already consumed, so `len = line.length - pos`. The current
token `curr_word` is the span `[tokStart, tokStart + tokLen)` of `line`;
`tokSet` is `curr_word.text != nullptr`. -/
structure Interp where
  line : List Char
  pos : Nat
  tokStart : Nat
  tokLen : Nat
  tokSet : Bool
  handled : Bool
  state : PState
deriving DecidableEq, Repr

/-- Latch an error on the interpreter's program state. -/
def Interp.err (I : Interp) (msg : String) : Interp :=
  { I with state := setErr I.state msg }

/-- Length of the leading run of spaces (the `while (len > 0 && line[0] == ' ')` loop). -/
def spaceCount : List Char → Nat
  | [] => 0
  | c :: cs => if c.toNat = 32 then spaceCount cs + 1 else 0

/-- Length of the leading run of non-space characters (the
`while (len > 0 && line[0] != ' ')` loop). -/
def tokCount : List Char → Nat
  | [] => 0
  | c :: cs => if c.toNat = 32 then 0 else tokCount cs + 1

/-- `Interpreter::get_word`: peek if an unhandled token is pending,
otherwise skip spaces and take the next maximal non-space run (possibly
empty at end of line). -/
def Interp.getWord (I : Interp) : Interp :=
  if I.tokSet ∧ ¬I.handled then I
  else
    let rest := I.line.drop I.pos
    let s := spaceCount rest
    let t := tokCount (rest.drop s)
    { I with pos := I.pos + s + t, tokStart := I.pos + s, tokLen := t,
             tokSet := true, handled := false }

/-- The characters of the current token. -/
def Interp.tokChars (I : Interp) : List Char :=
  (I.line.drop I.tokStart).take I.tokLen

/-- The current token as a string. -/
def Interp.tok (I : Interp) : String := String.mk I.tokChars

/-- Reverse scan (`idx_t i = n; while (i --> 0)`) returning the highest
index whose name equals the token, as the user-word lookup does so that
redefinition shadows older definitions. -/
def revFind (names : List String) (t : String) : Option Nat :=
  match names with
  | [] => none
  | n :: rest =>
    match revFind rest t with
    | some i => some (i + 1)
    | none => if n = t then some 0 else none

/-- `Interpreter::read_word_idx`. -/
def readWordIdx (I0 : Interp) : Interp × Option Nat :=
  let I := I0.getWord
  if I.tokLen = 0 then (I, none)
  else
    match revFind (I.state.words.map Wd.name) I.tok with
    | some i => ({ I with handled := true }, some i)
    | none => (I, none)

/-- `Interpreter::read_primitive_idx`; the reverse scan over the table
is `pwTable.reverse.find?` (names are distinct, so this is the unique
match). -/
def readPrimIdx (I0 : Interp) : Interp × Option PW :=
  let I := I0.getWord
  if I.tokLen = 0 then (I, none)
  else
    match pwTable.reverse.find? (fun p => pwName p = I.tok) with
    | some p => ({ I with handled := true }, some p)
    | none => (I, none)

/-- `Interpreter::read_syntax_idx`. -/
def readSCIdx (I0 : Interp) : Interp × Option SC :=
  let I := I0.getWord
  if I.tokLen = 0 then (I, none)
  else
    match scTable.reverse.find? (fun sc => scName sc = I.tok) with
    | some sc => ({ I with handled := true }, some sc)
    | none => (I, none)

/-- Outcome of the decimal scan inside `read_number`. -/
inductive NumScan where
  | ok (v : Nat)
  | reject
  | overflow
deriving DecidableEq, Repr

/-- The digit loop of `Interpreter::read_number`: base-10 accumulation
into the wrapping unsigned view, rejecting on a non-digit and reporting
overflow when the wrapped value decreases. -/
def numScan : List Char → Nat → NumScan
  | [], acc => .ok acc
  | c :: cs, acc =>
    if c.toNat < 48 ∨ 57 < c.toNat then .reject
    else
      let next := (acc * 10 + (c.toNat - 48)) % W
      if next < acc then .overflow
      else numScan cs next

/-- `Interpreter::read_number`. NOTE: unlike the three other readers,
the source has no `curr_word.len == 0` early return here, so the empty
end-of-line token scans zero digits and yields the number 0. -/
def readNumber (I0 : Interp) : Interp × Option Nat :=
  let I := I0.getWord
  match numScan I.tokChars 0 with
  | .ok v => ({ I with handled := true }, some v)
  | .reject => (I, none)
  | .overflow => (I.err "Error: Number number too large!", none)

/-- `Interpreter::read_value`: classification precedence user word >
primitive > syntax form > decimal number, falling through to the
`undefined word` error (which also overwrites a number-overflow
error, as the source does). -/
def readValue (I : Interp) : Interp × Option Val :=
  match readWordIdx I with
  | (I1, some i) => (I1, some (.word i))
  | (I1, none) =>
    match readPrimIdx I1 with
    | (I2, some p) => (I2, some (.prim p))
    | (I2, none) =>
      match readSCIdx I2 with
      | (I3, some sc) => (I3, some (.syn sc))
      | (I3, none) =>
        match readNumber I3 with
        | (I4, some n) => (I4, some (.num n))
        | (I4, none) => (I4.err "Error: undefined word", none)

/-- Append one cell to the code buffer (`push(state.code, ...)`). -/
def pushCode (I : Interp) (v : Val) : Interp :=
  { I with state := { I.state with code := I.state.code ++ [v] } }

/-- Overwrite the cell at an absolute index. Models the backpatch
through `Value &skip_len = state.code[length-1]` in `compile_skip` /
`compile_rep_and`; the source's C++ reference may dangle if the vector
reallocates during the nested compile (a latent source bug), and the
intended write to that slot is modelled. -/
def setCodeAt (I : Interp) (i : Nat) (v : Val) : Interp :=
  { I with state := { I.state with code := I.state.code.set i v } }

/-- Truncate the code buffer back to a recorded length (the
`while (length(code) > initial) pop(code);` rollback loops). -/
def truncCode (st : PState) (n : Nat) : PState :=
  { st with code := st.code.take n }

/-- `string_value_t` of src/mieliepit.cpp: the raw source span between
the quote tokens, as offsets into the line. -/
structure StrVal where
  start : Nat
  len : Nat
  words : Nat
deriving Repr

/-- The scan loop of `parse_string`: consume tokens until a lone `"`
or end of line, tracking the end offset of the last content token. -/
def parseStringLoop : Nat → Interp → Nat → Option (Interp × Nat)
  | 0, _, _ => none
  | f+1, I0, endOff =>
    let I := I0.getWord
    let I := { I with handled := true }
    if I.tokLen = 1 ∧ I.tok = "\"" then some (I, endOff)
    else if I.tokLen = 0 then some (I.err "Error: unclosed string", endOff)
    else parseStringLoop f I (I.tokStart + I.tokLen)

/-- `parse_string`: the first token after the opening quote starts the
span unconditionally; `words = len/8 + !!(len&7)`. -/
def parseString (f : Nat) (I0 : Interp) : Option (Interp × StrVal) :=
  let I := I0.getWord
  let I := { I with handled := true }
  let start := I.tokStart
  match parseStringLoop f I (I.tokStart + I.tokLen) with
  | none => none
  | some (I1, e) =>
    let len := e - start
    let words := len / 8 + (if len % 8 = 0 then 0 else 1)
    some (I1, ⟨start, len, words⟩)

/-- Pack a byte span into one machine word, first character least
significant (the `while (j --> i*8) { num <<= 8; num |= byte; }` loop). -/
def packWord (chars : List Char) : Nat :=
  chars.foldr (fun c acc => acc * 256 + c.toNat % 256) 0

/-- Pack a span into `k` consecutive machine words of 8 bytes each. -/
def packWordsAux : Nat → List Char → List Nat
  | 0, _ => []
  | k+1, l => packWord (l.take 8) :: packWordsAux k (l.drop 8)

/-- `interpret_string`: push the packed words in order, then the word
count. -/
def interpretString (f : Nat) (I0 : Interp) : Option Interp :=
  match parseString f I0 with
  | none => none
  | some (I1, sv) =>
    if I1.state.error.isSome then some I1
    else
      let span := (I1.line.drop sv.start).take sv.len
      let packed := packWordsAux sv.words span
      some { I1 with state :=
        { I1.state with stack := sv.words :: (packed.reverse ++ I1.state.stack) } }

/-- `ignore_string`. -/
def ignoreString (f : Nat) (I0 : Interp) : Option Interp :=
  (parseString f I0).map (fun r => r.1)

/-- `compile_string`: emit the packed words then the count as `Number`
cells; report the number of cells emitted since `start_len`. -/
def compileString (f : Nat) (I0 : Interp) : Option (Interp × Option Nat) :=
  match parseString f I0 with
  | none => none
  | some (I1, sv) =>
    if I1.state.error.isSome then some (I1, none)
    else
      let startLen := I1.state.code.length
      let span := (I1.line.drop sv.start).take sv.len
      let packed := packWordsAux sv.words span
      let I2 := { I1 with state := { I1.state with
        code := I1.state.code ++ packed.map Val.num ++ [Val.num sv.words] } }
      some (I2, some (I2.state.code.length - startLen))

/-- The digit loop of `parse_hex`: accepts `0-9`, `a-z`, `A-Z` (the
source's known over-wide ranges) and combines with `num <<= 4; num |= d`
(a bitwise or, so letters past `f` can bleed across nibbles). `none`
means a character outside all three ranges. -/
def hexScan : List Char → Nat → Option Nat
  | [], acc => some acc
  | c :: cs, acc =>
    let n := c.toNat
    if (n < 48 ∨ 57 < n) ∧ (n < 97 ∨ 122 < n) ∧ (n < 65 ∨ 90 < n) then none
    else
      let d := if 48 ≤ n ∧ n ≤ 57 then n - 48
               else if 97 ≤ n ∧ n ≤ 122 then n - 97 + 10
               else n - 65 + 10
      hexScan cs (Nat.lor (acc * 16) d)

/-- `parse_hex`: empty token, overlength (> 8 characters) and
out-of-range characters latch the respective errors and yield 0. -/
def parseHex (I0 : Interp) : Interp × Nat :=
  let I := I0.getWord
  if I.tokLen = 0 then (I.err "Error: expected hex number after `hex`", 0)
  else if I.tokLen > 8 then
    (I.err "Error: hex number can't be larger than FFFFFFFF", 0)
  else
    match hexScan I.tokChars 0 with
    | none => (I.err "Error: expected hex number to exist of only hex digits", 0)
    | some v => ({ I with handled := true }, v)

/-- `interpret_hex`. -/
def interpretHex (I0 : Interp) : Interp :=
  let (I1, num) := parseHex I0
  if I1.state.error.isSome then I1
  else { I1 with state := { I1.state with stack := num :: I1.state.stack } }

/-- `ignore_hex`. -/
def ignoreHex (I0 : Interp) : Interp := (parseHex I0).1

/-- `compile_hex`. -/
def compileHex (I0 : Interp) : Interp × Option Nat :=
  let (I1, num) := parseHex I0
  if I1.state.error.isSome then (I1, none)
  else (pushCode I1 (.num num), some 1)

/-- `parse_short_str`: at most 8 characters on the hosted variant,
packed first character least significant. -/
def parseShortStr (I0 : Interp) : Interp × Nat :=
  let I := I0.getWord
  if I.tokLen = 0 then
    (I.err ("Error: expected word after `" ++ scName SC.shortStr ++ "`"), 0)
  else if I.tokLen > 8 then
    (I.err "Error: short strings may be no longer than eight characters", 0)
  else ({ I with handled := true }, packWord I.tokChars)

/-- `interpret_short_str`. -/
def interpretShortStr (I0 : Interp) : Interp :=
  let (I1, num) := parseShortStr I0
  if I1.state.error.isSome then I1
  else { I1 with state := { I1.state with stack := num :: I1.state.stack } }

/-- `ignore_short_str`. -/
def ignoreShortStr (I0 : Interp) : Interp := (parseShortStr I0).1

/-- `compile_short_str`. -/
def compileShortStr (I0 : Interp) : Interp × Option Nat :=
  let (I1, num) := parseShortStr I0
  if I1.state.error.isSome then (I1, none)
  else (pushCode I1 (.num num), some 1)

/-- `ignore_comment`: consume tokens until a lone `)` or the unclosed
comment error. -/
def ignoreComment : Nat → Interp → Option Interp
  | 0, _ => none
  | f+1, I0 =>
    let I := I0.getWord
    if I.tokLen = 1 ∧ I.tok = ")" then some { I with handled := true }
    else if I.tokLen = 0 then some (I.err "Error: unclosed comment")
    else ignoreComment f { I with handled := true }

/-- Render the body cells of a user word, as the loop of
`print_definition` does: a leading space then the cell's name or value.
A `Syntax` cell latches the error and continues; a `numAddr` cell would
print a machine address and is not modelled; a `Word` cell with an
out-of-range index fails the source's `assert`. -/
def printDefCells (st : PState) : List Val → Option PState
  | [] => some st
  | v :: rest =>
    match v with
    | .word i =>
      match st.words.get? i with
      | some w => printDefCells { st with out := st.out ++ " " ++ w.name } rest
      | none => none
    | .prim p => printDefCells { st with out := st.out ++ " " ++ pwName p } rest
    | .syn _ =>
        printDefCells
          (setErr st "Error: syntax expression shouldn't be present in compiled word") rest
    | .num n => printDefCells { st with out := st.out ++ " " ++ toString n } rest
    | .numAddr _ => none
    | .rf fn => printDefCells { st with out := st.out ++ " " ++ rfName fn } rest

/-- `print_definition`: `: name ( desc )` then the rendered body then
` ;`. The bounds asserts guard the word's slice. -/
def printDefinition (st : PState) (idx : Nat) : Option PState :=
  match st.words.get? idx with
  | none => none
  | some w =>
    if w.code_pos + w.code_len ≤ st.code.length then
      let st1 := { st with out := st.out ++ ": " ++ w.name ++ " ( " ++ w.desc ++ " )" }
      match printDefCells st1 ((st1.code.drop w.code_pos).take w.code_len) with
      | none => none
      | some st2 => some { st2 with out := st2.out ++ " ;" }
    else none

/-- `interpret_help`: print the classified value's one-line help. A
`RawFunction` classification is impossible from tokens and would fail
the source's `assert`. -/
def interpretHelp (I0 : Interp) : Option Interp :=
  let I := I0.getWord
  if I.tokLen = 0 then some (I.err "Error: expected following word")
  else
    match readValue I with
    | (I1, none) => some (I1.err "Error: couldn't find the specified word")
    | (I1, some v) =>
      match v with
      | .word i =>
        match I1.state.words.get? i with
        | some w => some { I1 with state := { I1.state with
            out := I1.state.out ++ "`" ++ w.name ++ "`: " ++ w.desc } }
        | none => none
      | .prim p => some { I1 with state := { I1.state with
          out := I1.state.out ++ "`" ++ pwName p ++ "`: " ++ pwDesc p } }
      | .syn sc => some { I1 with state := { I1.state with
          out := I1.state.out ++ "`" ++ scName sc ++ "`: " ++ scDesc sc } }
      | .num n => some { I1 with state := { I1.state with
          out := I1.state.out ++ "Pushes the number " ++ toString n ++ " to the stack" } }
      | .numAddr _ => none
      | .rf _ => none

/-- `ignore_help`: peeks the following token (leaving it unhandled) and
only reports the missing-word error at end of line. -/
def ignoreHelp (I0 : Interp) : Interp :=
  let I := I0.getWord
  if I.tokLen = 0 then I.err "Error: expected following word" else I

/-- `compile_help`: emit the run-time printing sequence; counts are
reported as `length - start_len`. -/
def compileHelp (I0 : Interp) : Option (Interp × Option Nat) :=
  let I := I0.getWord
  let startLen := I.state.code.length
  if I.tokLen = 0 then some (I.err "Error: expected following word", none)
  else
    match readValue I with
    | (I1, none) => some (I1.err "Error: couldn't find the specified word", none)
    | (I1, some v) =>
      match v with
      | .word i =>
        match I1.state.words.get? i with
        | some w =>
          let I2 := { I1 with state := { I1.state with code := I1.state.code ++
            [Val.num 96, Val.prim .pstr,
             Val.numAddr w.name, Val.rf .printRaw,
             Val.numAddr "`: ", Val.rf .printRaw,
             Val.numAddr w.desc, Val.rf .printRaw] } }
          some (I2, some (I2.state.code.length - startLen))
        | none => none
      | .prim p =>
        let I2 := { I1 with state := { I1.state with code := I1.state.code ++
          [Val.num 96, Val.prim .pstr,
           Val.numAddr (pwName p), Val.rf .printRaw,
           Val.numAddr "`: ", Val.rf .printRaw,
           Val.numAddr (pwDesc p), Val.rf .printRaw] } }
        some (I2, some (I2.state.code.length - startLen))
      | .syn sc =>
        let I2 := { I1 with state := { I1.state with code := I1.state.code ++
          [Val.num 96, Val.prim .pstr,
           Val.numAddr (scName sc), Val.rf .printRaw,
           Val.numAddr "`: ", Val.rf .printRaw,
           Val.numAddr (scDesc sc), Val.rf .printRaw] } }
        some (I2, some (I2.state.code.length - startLen))
      | .num n =>
        let I2 := { I1 with state := { I1.state with code := I1.state.code ++
          [Val.numAddr "Pushes the number ", Val.rf .printRaw,
           Val.num n, Val.prim .print,
           Val.numAddr " to the stack", Val.rf .printRaw] } }
        some (I2, some (I2.state.code.length - startLen))
      | .numAddr _ => none
      | .rf _ => none

/-- `interpret_def`: print the definition of a user word, or a
diagnostic placeholder for the other kinds (with the source's
`build-in` typo for a syntax form). -/
def interpretDef (I0 : Interp) : Option Interp :=
  let I := I0.getWord
  if I.tokLen = 0 then some (I.err "Error: expected following word")
  else
    match readValue I with
    | (I1, none) => some (I1.err "Error: couldn't find the specified word")
    | (I1, some v) =>
      match v with
      | .word i =>
        (printDefinition I1.state i).map (fun st => { I1 with state := st })
      | .prim p => some { I1 with state := { I1.state with
          out := I1.state.out ++ "<built-in primitive `" ++ pwName p ++ "`>" } }
      | .syn sc => some { I1 with state := { I1.state with
          out := I1.state.out ++ "<build-in syntax expression `" ++ scName sc ++ "`>" } }
      | .num n => some { I1 with state := { I1.state with
          out := I1.state.out ++ "<literal " ++ toString n ++ ">" } }
      | .numAddr _ => none
      | .rf _ => none

/-- `ignore_def`. -/
def ignoreDef (I0 : Interp) : Interp :=
  let I := I0.getWord
  if I.tokLen = 0 then I.err "Error: expected following word" else I

/-- `compile_def`: emit the run-time printing sequence (two cells for a
user word, six otherwise). -/
def compileDef (I0 : Interp) : Option (Interp × Option Nat) :=
  let I := I0.getWord
  let startLen := I.state.code.length
  if I.tokLen = 0 then some (I.err "Error: expected following word", none)
  else
    match readValue I with
    | (I1, none) => some (I1.err "Error: couldn't find the specified word", none)
    | (I1, some v) =>
      match v with
      | .word i =>
        let I2 := { I1 with state := { I1.state with code := I1.state.code ++
          [Val.num i, Val.rf .printDef] } }
        some (I2, some (I2.state.code.length - startLen))
      | .prim p =>
        let I2 := { I1 with state := { I1.state with code := I1.state.code ++
          [Val.numAddr "<built-in primitive `", Val.rf .printRaw,
           Val.numAddr (pwName p), Val.rf .printRaw,
           Val.numAddr "`>", Val.rf .printRaw] } }
        some (I2, some (I2.state.code.length - startLen))
      | .syn sc =>
        let I2 := { I1 with state := { I1.state with code := I1.state.code ++
          [Val.numAddr "<built-in syntax expression `", Val.rf .printRaw,
           Val.numAddr (scName sc), Val.rf .printRaw,
           Val.numAddr "`>", Val.rf .printRaw] } }
        some (I2, some (I2.state.code.length - startLen))
      | .num n =>
        let I2 := { I1 with state := { I1.state with code := I1.state.code ++
          [Val.numAddr "<literal ", Val.rf .printRaw,
           Val.num n, Val.prim .print,
           Val.numAddr "`>", Val.rf .printRaw] } }
        some (I2, some (I2.state.code.length - startLen))
      | .numAddr _ => none
      | .rf _ => none


/-- Call tags for the mutually recursive ignore-mode group of
src/mieliepit.hpp / src/mieliepit.cpp: `ignore_next` / the ignore
handler of a syntax form / `ignore_skip` / `ignore_word_def` /
`ignore_rep_and` / `ignore_block`. -/
inductive IgnCall where
  | next (I : Interp)
  | syn (sc : SC) (I : Interp)
  | skip (I : Interp)
  | wordDef (I : Interp)
  | repAnd (I : Interp)
  | block (I : Interp)

/-- The ignore-mode group, defunctionalised over `IgnCall` so that the
fuel recursion is structural (and so computes definitionally). The
Bool is the return value of `ignore_next`; every other case returns
`true`. Case by case:
`.next` is `Interpreter::ignore_next` (dispatching through
`ignore_value`); `.syn sc` is `syntax[sc].ignore`; `.skip` is
`ignore_skip` (`assert(interpreter.ignore_next())`); `.wordDef` is
`ignore_word_def` (skip tokens until `;`, result of `ignore_next`
discarded); `.repAnd` is `ignore_rep_and` (also the `rep` entry);
`.block` is `ignore_block` (skip tokens until `]`). -/
def ignoreStep : Nat → IgnCall → Option (Interp × Bool)
  | 0, _ => none
  | f+1, .next I =>
    match readValue I with
    | (I1, none) => some (I1, false)
    | (I1, some v) =>
      match v with
      | .word _ => some (I1, true)
      | .prim _ => some (I1, true)
      | .num _ => some (I1, true)
      | .numAddr _ => some (I1, true)
      | .rf _ => some (I1.err "Error: cannot interpret raw function", true)
      | .syn sc => (ignoreStep f (.syn sc I1)).map (fun p => (p.1, true))
  | f+1, .syn sc I =>
    match sc with
    | .str => (ignoreString f I).map (fun I1 => (I1, true))
    | .hex => some (ignoreHex I, true)
    | .shortStr => some (ignoreShortStr I, true)
    | .help => some (ignoreHelp I, true)
    | .defn => some (ignoreDef I, true)
    | .comment => (ignoreComment f I).map (fun I1 => (I1, true))
    | .recf => some (I, true)
    | .ret => some (I, true)
    | .skip => ignoreStep f (.skip I)
    | .wordDef => ignoreStep f (.wordDef I)
    | .repAnd => ignoreStep f (.repAnd I)
    | .rep => ignoreStep f (.repAnd I)
    | .block => ignoreStep f (.block I)
  | f+1, .skip I =>
    match ignoreStep f (.next I) with
    | some (I1, true) => some (I1, true)
    | some (_, false) => none
    | none => none
  | f+1, .wordDef I0 =>
    let I := I0.getWord
    if I.tokLen = 1 ∧ I.tok = ";" then some ({ I with handled := true }, true)
    else if I.tokLen = 0 then
      some (I.err "Error: unterminated word definition", true)
    else
      match ignoreStep f (.next I) with
      | some (I1, _) => ignoreStep f (.wordDef I1)
      | none => none
  | f+1, .repAnd I =>
    match ignoreStep f (.next I) with
    | some (I1, true) => some (I1, true)
    | some (_, false) => none
    | none => none
  | f+1, .block I0 =>
    let I := I0.getWord
    if I.tokLen = 1 ∧ I.tok = "]" then some ({ I with handled := true }, true)
    else if I.tokLen = 0 then some (I.err "Error: unclosed block", true)
    else
      match ignoreStep f (.next I) with
      | some (I1, true) => ignoreStep f (.block I1)
      | some (I1, false) =>
          some (I1.err "Error: unrecognised word while parsing block", true)
      | none => none

/-- `Interpreter::ignore_next`. -/
def ignoreNextF (f : Nat) (I : Interp) : Option (Interp × Bool) :=
  ignoreStep f (.next I)

/-- `Interpreter::ignore_syntax_idx` (dispatch to `syntax[sc].ignore`). -/
def ignoreSynF (f : Nat) (sc : SC) (I : Interp) : Option Interp :=
  (ignoreStep f (.syn sc I)).map (fun p => p.1)

/-- End of `compile_block`: truncate and fail when an error is latched,
otherwise report the summed cell count. -/
def finishBlock (I : Interp) (initLen total : Nat) : Option (Interp × Option Nat) :=
  if I.state.error.isSome then
    some ({ I with state := truncCode I.state initLen }, none)
  else some (I, some total)

/-- Call tags for the mutually recursive compile-mode group:
`compile_next` / `compile_value` / the compile handler of a syntax
form / `compile_skip` / `compile_rep_and` / `compile_rep` /
`compile_block` and its token loop. -/
inductive CompCall where
  | next (I : Interp)
  | value (v : Val) (I : Interp)
  | syn (sc : SC) (I : Interp)
  | skip (I : Interp)
  | repAnd (I : Interp)
  | rep (I : Interp)
  | block (I : Interp)
  | blockLoop (I : Interp) (initLen total : Nat)

/-- The compile-mode group, defunctionalised over `CompCall`; the
`Option Nat` is the `maybe_t<size_t>` cell count. Case by case:
`.next` is `Interpreter::compile_next`; `.value` is
`Interpreter::compile_value` (one appended cell for a word /
primitive / number, the source's `assert` for an out-of-range word
index, the raw-function error); `.syn sc` is `syntax[sc].compile`;
`.skip` is `compile_skip` (emit `Number(0)` + `RawFunction(skip)`,
compile the next item, backpatch the placeholder, report `len+2`; on
inner failure pop both cells and hit `assert(false)`); `.repAnd` is
`compile_rep_and` (same shape with the `rep_and` opcode); `.rep` is
`compile_rep` (`compile_rep_and` plus a trailing `drop` cell);
`.block` / `.blockLoop` are `compile_block` and its token loop. -/
def compileStep : Nat → CompCall → Option (Interp × Option Nat)
  | 0, _ => none
  | f+1, .next I =>
    match readValue I with
    | (I1, none) => some (I1, none)
    | (I1, some v) => compileStep f (.value v I1)
  | f+1, .value v I =>
    match v with
    | .word i =>
        if i < I.state.words.length then some (pushCode I (.word i), some 1)
        else none
    | .prim p => some (pushCode I (.prim p), some 1)
    | .num n => some (pushCode I (.num n), some 1)
    | .numAddr s => some (pushCode I (.numAddr s), some 1)
    | .rf _ => some (I.err "Error: cannot interpret raw function", none)
    | .syn sc => compileStep f (.syn sc I)
  | f+1, .syn sc I =>
    match sc with
    | .str => compileString f I
    | .hex => some (compileHex I)
    | .shortStr => some (compileShortStr I)
    | .help => compileHelp I
    | .defn => compileDef I
    | .comment => (ignoreComment f I).map (fun I1 => (I1, some 0))
    | .recf => some (pushCode I (.rf .recurse), some 1)
    | .ret => some (pushCode I (.rf .returnRf), some 1)
    | .skip => compileStep f (.skip I)
    | .wordDef => some (I.err ": is not valid inside a word definition", none)
    | .repAnd => compileStep f (.repAnd I)
    | .rep => compileStep f (.rep I)
    | .block => compileStep f (.block I)
  | f+1, .skip I =>
    let slot := I.state.code.length
    let I1 := pushCode (pushCode I (.num 0)) (.rf .skip)
    match compileStep f (.next I1) with
    | some (I2, some k) => some (setCodeAt I2 slot (.num k), some (k + 2))
    | some (_, none) => none
    | none => none
  | f+1, .repAnd I =>
    let slot := I.state.code.length
    let I1 := pushCode (pushCode I (.num 0)) (.rf .repAnd)
    match compileStep f (.next I1) with
    | some (I2, some k) => some (setCodeAt I2 slot (.num k), some (k + 2))
    | some (_, none) => none
    | none => none
  | f+1, .rep I =>
    match compileStep f (.repAnd I) with
    | some (I1, some k) => some (pushCode I1 (.prim .drop), some (k + 1))
    | some (I1, none) => some (I1, none)
    | none => none
  | f+1, .block I => compileStep f (.blockLoop I I.state.code.length 0)
  | f+1, .blockLoop I0 initLen total =>
    let I := I0.getWord
    if I.tokLen = 1 ∧ I.tok = "]" then
      finishBlock { I with handled := true } initLen total
    else if I.tokLen = 0 then
      finishBlock (I.err "Error: unclosed block") initLen total
    else
      match compileStep f (.next I) with
      | some (I1, some k) => compileStep f (.blockLoop I1 initLen (total + k))
      | some (I1, none) =>
          if I1.state.error.isSome then finishBlock I1 initLen total
          else finishBlock (I1.err "Error: unrecognised word while parsing block")
                 initLen total
      | none => none

/-- `Interpreter::compile_next`. -/
def compileNextF (f : Nat) (I : Interp) : Option (Interp × Option Nat) :=
  compileStep f (.next I)

/-- `Interpreter::compile_syntax_idx` (dispatch to
`syntax[sc].compile`). -/
def compileSynF (f : Nat) (sc : SC) (I : Interp) : Option (Interp × Option Nat) :=
  compileStep f (.syn sc I)

/-- Modelled from the spec: the `Runner` struct of the current header is
absent from src/ (the header in src/ is an older revision without the
`initial` / `curr` pair that src/mieliepit.cpp uses). Per spec section
4.6 the state is `{initial: (code, len), curr: (code, len)}`; code
pointers are represented as absolute indices into the code buffer, and
a fresh runner starts with `curr = initial`. -/
structure RunnerSt where
  initIdx : Nat
  initLen : Nat
  idx : Nat
  len : Nat
deriving DecidableEq, Repr

/-- A fresh runner over the slice `[pos, pos + len)`. -/
def mkRunner (pos len : Nat) : RunnerSt :=
  { initIdx := pos, initLen := len, idx := pos, len := len }

/-- Call tags for the mutually recursive runner group: the word
execution loop / `Runner::run_next` / `run_word_idx` / a raw-function
opcode / the two loops of the `rep_and` opcode. -/
inductive RunCall where
  | loop (r : RunnerSt) (st : PState)
  | next (r : RunnerSt) (st : PState)
  | word (i : Nat) (st : PState)
  | rfun (fn : RF) (r : RunnerSt) (st : PState)
  | repIter (reps : Nat) (start : RunnerSt) (untilIdx : Nat) (st : PState)
  | repInner (untilIdx : Nat) (r : RunnerSt) (st : PState)

/-- The runner group, defunctionalised over `RunCall`. Case by case:
`.loop` is `while (!state.error && runner.curr.len > 0) run_next();`;
`.next` is `Runner::run_next` (a no-op when the slice is exhausted,
otherwise read the cell at `curr` and dispatch on its kind — a
`Syntax` cell latches the run-mode error); `.word` is `run_word_idx`
(bounds asserts then a fresh runner over the word's slice); `.rfun`
covers the raw-function opcodes of src/mieliepit.cpp — `print_raw`
dereferences a machine address and is not modelled, `print_definition`
pops a word index (unchecked), `recurse` resets `curr := initial`,
`return_rf` exhausts the slice, `skip` pops the length then the
boolean (unchecked) and advances on zero (with the
`assert(skip_len <= curr.len)`), `rep_and` pops the region length then
the count (unchecked) and runs `.repIter`; `.repIter` is the
`for (i < reps)` loop (resetting `curr` to the saved cursor after each
round) and `.repInner` the inner
`while (runner.curr.code < rep_until)` loop, which has no error guard,
followed by `assert(runner.curr.code == rep_until)`. All stack pops
here are unchecked, so an underflow is undefined behaviour (`none`),
not a latched error. -/
def runnerStep : Nat → RunCall → Option (RunnerSt × PState)
  | 0, _ => none
  | f+1, .loop r st =>
    if st.error = none ∧ r.len > 0 then
      match runnerStep f (.next r st) with
      | some (r1, st1) => runnerStep f (.loop r1 st1)
      | none => none
    else some (r, st)
  | f+1, .next r st =>
    if r.len = 0 then some (r, st)
    else
      match st.code.get? r.idx with
      | none => none
      | some v =>
        let r1 : RunnerSt := { r with idx := r.idx + 1, len := r.len - 1 }
        match v with
        | .word i => (runnerStep f (.word i st)).map (fun p => (r1, p.2))
        | .prim p => (runPrim p st).map (fun st1 => (r1, st1))
        | .syn _ =>
            some (r1, setErr st "Error: cannot run compiled syntax expression")
        | .num n => some (r1, { st with stack := n :: st.stack })
        | .numAddr _ => none
        | .rf fn => runnerStep f (.rfun fn r1 st)
  | f+1, .word i st =>
    match st.words.get? i with
    | none => none
    | some w =>
      if w.code_pos + w.code_len ≤ st.code.length then
        runnerStep f (.loop (mkRunner w.code_pos w.code_len) st)
      else none
  | f+1, .rfun fn r st =>
    match fn with
    | .printRaw => none
    | .printDef =>
      match st.stack with
      | [] => none
      | i :: s =>
          (printDefinition { st with stack := s } i).map (fun st1 => (r, st1))
    | .recurse => some ({ r with idx := r.initIdx, len := r.initLen }, st)
    | .returnRf => some ({ r with idx := r.idx + r.len, len := 0 }, st)
    | .skip =>
      match st.stack with
      | skipLen :: b :: s =>
        if b = 0 then
          if skipLen ≤ r.len then
            some ({ r with idx := r.idx + skipLen, len := r.len - skipLen },
                  { st with stack := s })
          else none
        else some (r, { st with stack := s })
      | _ => none
    | .repAnd =>
      match st.stack with
      | repLen :: reps :: s =>
        match runnerStep f (.repIter reps r (r.idx + repLen) { st with stack := s }) with
        | none => none
        | some (_, st1) =>
          if repLen ≤ r.len then
            some ({ r with idx := r.idx + repLen, len := r.len - repLen },
                  { st1 with stack := reps :: st1.stack })
          else none
      | _ => none
  | _+1, .repIter 0 start _ st => some (start, st)
  | f+1, .repIter (reps+1) start untilIdx st =>
    match runnerStep f (.repInner untilIdx start st) with
    | some (_, st1) => runnerStep f (.repIter reps start untilIdx st1)
    | none => none
  | f+1, .repInner untilIdx r st =>
    if r.idx < untilIdx then
      match runnerStep f (.next r st) with
      | some (r1, st1) => runnerStep f (.repInner untilIdx r1 st1)
      | none => none
    else if r.idx = untilIdx then some (r, st)
    else none

/-- The word-execution loop, projected to the final program state. -/
def runnerLoopF (f : Nat) (r : RunnerSt) (st : PState) : Option PState :=
  (runnerStep f (.loop r st)).map (fun p => p.2)

/-- `run_word_idx`. -/
def runWordIdxF (f : Nat) (i : Nat) (st : PState) : Option PState :=
  (runnerStep f (.word i st)).map (fun p => p.2)

/-- One raw-function opcode call (`function_ptr->run(runner)`). -/
def runRFF (f : Nat) (fn : RF) (r : RunnerSt) (st : PState) : Option (RunnerSt × PState) :=
  runnerStep f (.rfun fn r st)

/-- Pop `k` cells from the back of the code buffer (the rollback loop
of `interpret_word_def`). -/
def popCodeN (I : Interp) (k : Nat) : Interp :=
  { I with state := { I.state with
      code := I.state.code.take (I.state.code.length - k) } }

/-- `define_word`: append the new Word entry (name and description are
stored directly; the hosted variant's arenas grow, so the capacity
asserts cannot fire). -/
def defineWord (I : Interp) (name desc : String) (codeStart codeLen : Nat) : Interp :=
  { I with state := { I.state with
      words := I.state.words ++
        [{ name := name, desc := desc, code_pos := codeStart, code_len := codeLen }] } }

/-- The description loop of `interpret_word_def`: extend the span to
the end of the current token, then read the next token; `)` closes the
description, `(` skips a nested comment via `ignore_next`, end of line
is an error (the Bool result is false); an empty current token fails
the loop-top `assert`. -/
def wordDefDescLoopF : Nat → Interp → Nat → Option (Interp × Nat × Bool)
  | 0, _, _ => none
  | f+1, I0, descStart =>
    if I0.tokLen = 0 then none
    else
      let descEnd := I0.tokStart + I0.tokLen
      let I := I0.getWord
      if I.tokLen = 1 ∧ I.tok = ")" then
        some ({ I with handled := true }, descEnd, true)
      else if I.tokLen = 1 ∧ I.tok = "(" then
        match ignoreNextF f I with
        | some (I1, true) => wordDefDescLoopF f { I1 with handled := true } descStart
        | some (_, false) => none
        | none => none
      else if I.tokLen = 0 then
        some (I.err "Error: expected matching ) for start of description", descEnd, false)
      else wordDefDescLoopF f { I with handled := true } descStart

/-- The body loop of `interpret_word_def`: compile tokens until `;`
(success) or end of line (error, still falling through to
`define_word`, faithful to the source's `break`), rolling back
`code_len` cells and latching `undefined word` when a compile fails. -/
def wordDefBodyF : Nat → Interp → String → String → Nat → Nat → Option Interp
  | 0, _, _, _, _, _ => none
  | f+1, I0, name, desc, codeStart, codeLen =>
    let I := I0.getWord
    if I.tokLen = 1 ∧ I.tok = ";" then
      some (defineWord { I with handled := true } name desc codeStart codeLen)
    else if I.tokLen = 0 then
      some (defineWord (I.err "Error: unterminated word definition")
              name desc codeStart codeLen)
    else
      match compileNextF f I with
      | some (I1, some k) => wordDefBodyF f I1 name desc codeStart (codeLen + k)
      | some (I1, none) => some ((popCodeN I1 codeLen).err "Error: undefined word")
      | none => none

/-- `interpret_word_def`: read the name, the optional parenthesised
description, then compile the body until `;`. NOTE (faithful to the
source): the end-of-line "unterminated word definition" error `break`s
out of the body loop and still falls through to `define_word`, with no
rollback of the cells compiled so far. -/
def interpretWordDefF (f : Nat) (I0 : Interp) : Option Interp :=
  let codeStart := I0.state.code.length
  let I := I0.getWord
  if I.tokLen = 0 then some (I.err "Error: expected word name")
  else
    let name := I.tok
    let I1 := ({ I with handled := true }).getWord
    if I1.tokLen = 1 ∧ I1.tok = "(" then
      let I2 := ({ I1 with handled := true }).getWord
      if I2.tokLen = 0 then
        some (I2.err "Error: expected matching ) for start of description")
      else
        let descStart := I2.tokStart
        match wordDefDescLoopF f { I2 with handled := true } descStart with
        | none => none
        | some (I3, descEnd, true) =>
          let desc := String.mk ((I3.line.drop descStart).take (descEnd - descStart))
          wordDefBodyF f I3 name desc codeStart 0
        | some (I3, _, false) => some I3
    else wordDefBodyF f I1 name "" codeStart 0

/-- The `for (i < n)` loop of `interpret_rep_and`: each iteration runs
a fresh error-guarded runner over the scratch region. -/
def repRunsF : Nat → Nat → Nat → Nat → PState → Option PState
  | 0, _, _, _, _ => none
  | _+1, 0, _, _, st => some st
  | f+1, n+1, pos, k, st =>
    match runnerLoopF f (mkRunner pos k) st with
    | none => none
    | some st1 => repRunsF f n pos k st1

/-- `interpret_rep_and`: compile the next item into a scratch region,
pop `n` (unchecked), run the region `n` times, truncate the region,
then re-push `n` if no error was latched. -/
def interpretRepAndF (f : Nat) (I : Interp) : Option Interp :=
  let initialSize := I.state.code.length
  match compileNextF f I with
  | none => none
  | some (I1, none) => some (I1.err "Error: invalid code after rep_and")
  | some (I1, some k) =>
    match I1.state.stack with
    | [] => none
    | n :: s =>
      match repRunsF f n initialSize k { I1.state with stack := s } with
      | none => none
      | some st1 =>
        let st2 := truncCode st1 initialSize
        if st2.error = none then
          some { I1 with state := { st2 with stack := n :: st2.stack } }
        else some { I1 with state := st2 }

/-- `interpret_rep`: `interpret_rep_and` then pop the re-pushed count
(unchecked) when no error was latched. -/
def interpretRepF (f : Nat) (I : Interp) : Option Interp :=
  match interpretRepAndF f I with
  | none => none
  | some I1 =>
    if I1.state.error = none then
      match I1.state.stack with
      | [] => none
      | _ :: s => some { I1 with state := { I1.state with stack := s } }
    else some I1

/-- Call tags for the mutually recursive run-mode group: `run_next` /
`run_value` / the run handler of a syntax form / `interpret_skip` /
`interpret_block`. -/
inductive RunICall where
  | next (I : Interp)
  | value (v : Val) (I : Interp)
  | syn (sc : SC) (I : Interp)
  | skip (I : Interp)
  | block (I : Interp)

/-- The run-mode group, defunctionalised over `RunICall`; the Bool is
the return value of `run_next`. Case by case: `.next` is
`Interpreter::run_next`; `.value` is `Interpreter::run_value`; `.syn`
is `syntax[sc].run` (with `rec` / `ret` reporting their
outside-a-definition errors); `.skip` is `interpret_skip`, which pops
the condition with NO stack-length check (an empty stack is undefined
behaviour, not a latched error), then ignores or runs the next token,
asserting that a token was consumed; `.block` is `interpret_block`. -/
def runStep : Nat → RunICall → Option (Interp × Bool)
  | 0, _ => none
  | f+1, .next I =>
    match readValue I with
    | (I1, none) => some (I1, false)
    | (I1, some v) => (runStep f (.value v I1)).map (fun p => (p.1, true))
  | f+1, .value v I =>
    match v with
    | .word i => (runWordIdxF f i I.state).map (fun st => ({ I with state := st }, true))
    | .prim p => (runPrim p I.state).map (fun st => ({ I with state := st }, true))
    | .num n =>
        some ({ I with state := { I.state with stack := n :: I.state.stack } }, true)
    | .numAddr _ => none
    | .rf _ => some (I.err "Error: cannot interpret raw function", true)
    | .syn sc => runStep f (.syn sc I)
  | f+1, .syn sc I =>
    match sc with
    | .str => (interpretString f I).map (fun I1 => (I1, true))
    | .hex => some (interpretHex I, true)
    | .shortStr => some (interpretShortStr I, true)
    | .help => (interpretHelp I).map (fun I1 => (I1, true))
    | .defn => (interpretDef I).map (fun I1 => (I1, true))
    | .comment => (ignoreComment f I).map (fun I1 => (I1, true))
    | .recf => some (I.err "rec is only valid when defining a word", true)
    | .ret => some (I.err "ret is only valid when defining a word", true)
    | .skip => runStep f (.skip I)
    | .wordDef => (interpretWordDefF f I).map (fun I1 => (I1, true))
    | .repAnd => (interpretRepAndF f I).map (fun I1 => (I1, true))
    | .rep => (interpretRepF f I).map (fun I1 => (I1, true))
    | .block => runStep f (.block I)
  | f+1, .skip I =>
    match I.state.stack with
    | [] => none
    | c :: s =>
      let I1 := { I with state := { I.state with stack := s } }
      if c = 0 then
        match ignoreNextF f I1 with
        | some (I2, true) => some (I2, true)
        | some (_, false) => none
        | none => none
      else
        match runStep f (.next I1) with
        | some (I2, true) => some (I2, true)
        | some (_, false) => none
        | none => none
  | f+1, .block I0 =>
    let I := I0.getWord
    if I.tokLen = 1 ∧ I.tok = "]" then some ({ I with handled := true }, true)
    else if I.tokLen = 0 then some (I.err "Error: unclosed block", true)
    else
      match runStep f (.next I) with
      | some (I1, true) => runStep f (.block I1)
      | some (I1, false) =>
          some (I1.err "Error: unrecognised word while parsing block", true)
      | none => none

/-- `Interpreter::run_next`. -/
def runNextF (f : Nat) (I : Interp) : Option (Interp × Bool) :=
  runStep f (.next I)

/-- `interpret_skip`, projected to the resulting interpreter. -/
def interpretSkipF (f : Nat) (I : Interp) : Option Interp :=
  (runStep f (.skip I)).map (fun p => p.1)

/-- The per-line loop of `interpret_str`:
`while (!state.error && interpreter.len > 0) interpreter.run_next();`. -/
def runLoopF : Nat → Interp → Option Interp
  | 0, _ => none
  | f+1, I =>
    if I.state.error = none ∧ I.pos < I.line.length then
      match runNextF f I with
      | some (I1, _) => runLoopF f I1
      | none => none
    else some I

/-- `interpret_str` up to (not including) its error-report printing:
reset the error state and the current token, install the line, and run
the token loop. -/
def runLine (f : Nat) (s : String) (st : PState) : Option Interp :=
  runLoopF f
    { line := s.toList, pos := 0, tokStart := 0, tokLen := 0,
      tokSet := false, handled := false,
      state := { st with error := none, errorHandled := false } }

/-- Specification of a compile call's effect on the code buffer: a
successful count `some n` means exactly `n` cells were appended (the
length grew by `n` and the old buffer is an unchanged prefix); a
failed compile (`none`) left the buffer exactly as it was. -/
def CodeSpec (c c' : List Val) (r : Option Nat) : Prop :=
  match r with
  | some n => c'.length = c.length + n ∧ c'.take c.length = c
  | none => c' = c

/-- A closed interpreter state over the empty line, used by witnesses. -/
def emptyInterp : Interp :=
  { line := [], pos := 0, tokStart := 0, tokLen := 0, tokSet := false,
    handled := false, state := initPS }

/-- The interpreter state immediately after the token `5` of the line
`5 ` (one trailing space) was consumed and handled. -/
def c3AfterFive : Interp :=
  { line := "5 ".toList, pos := 1, tokStart := 0, tokLen := 1,
    tokSet := true, handled := true,
    state := { initPS with stack := [5] } }

/-- The code-buffer specification of each compile-mode call: every
plain call satisfies `CodeSpec` relative to its entry buffer, and the
`compile_block` token loop satisfies the accumulated version relative
to the recorded entry length. -/
def CompCallSpec : CompCall → Interp → Option Nat → Prop
  | .next I, I', r => CodeSpec I.state.code I'.state.code r
  | .value _ I, I', r => CodeSpec I.state.code I'.state.code r
  | .syn _ I, I', r => CodeSpec I.state.code I'.state.code r
  | .skip I, I', r => CodeSpec I.state.code I'.state.code r
  | .repAnd I, I', r => CodeSpec I.state.code I'.state.code r
  | .rep I, I', r => CodeSpec I.state.code I'.state.code r
  | .block I, I', r => CodeSpec I.state.code I'.state.code r
  | .blockLoop I L t, I', r =>
      L ≤ I.state.code.length →
      ((r = none → I'.state.code = I.state.code.take L) ∧
       (∀ n, r = some n → I'.state.code.length + t = I.state.code.length + n ∧
          I'.state.code.take I.state.code.length = I.state.code))

/-! ## Theorems -/

/-- Helper: the signed view agrees with the unsigned view modulo
`2^64`. -/
theorem toSign_emod (x : Nat) : toSign x % (2 ^ 64 : Int) = (x : Int) % 2 ^ 64 := by
  unfold toSign
  split
  · rfl
  · omega

/-- Helper: storing the product of two signed views is multiplication
modulo `2^64` of the unsigned views. -/
theorem toPos_mul (b a : Nat) : toPos (toSign b * toSign a) = b * a % W := by
  unfold toPos W
  have h : toSign b * toSign a % (2 ^ 64 : Int) = ((b * a : Nat) : Int) % 2 ^ 64 := by
    rw [Int.mul_emod, toSign_emod, toSign_emod, ← Int.mul_emod]
    push_cast
    ring_nf
  rw [h]
  omega

/-- C1: the claim "on any error while compiling a `: name ...` body the
code buffer is truncated back and no Word entry is appended" FAILS on
the code for a line that ends before the closing `;`: interpreting
`: foo dup` latches `unterminated word definition` yet still appends
the Word entry `foo` and keeps the compiled `dup` cell (the error path
merely `break`s out of the body loop and falls through to
`define_word`, unlike every other error path of `interpret_word_def`,
which `return`s before it). -/
theorem c1_unterminated_def_keeps_code_and_word :
    (runLine 100 ": foo dup" initPS).map
      (fun I => (I.state.error, I.state.code, I.state.words)) =
      some (some "Error: unterminated word definition",
        [Val.prim PW.dup],
        [{ name := "foo", desc := "", code_pos := 0, code_len := 1 }]) := by
  decide

/-- C3: the claim "classifying the empty end-of-line lexeme produces no
value of any class, so no extra Number is pushed for a line with
trailing spaces" FAILS on the code: `read_number` is missing the
`len == 0` guard that the other three readers have, so the empty
lexeme scans zero digits and classifies as `Number 0`; interpreting
the line `5 ` (with one trailing space) leaves the stack `[0, 5]`
(an extra 0 above the 5) with no error, and `read_value` at end of
line returns `Number 0`. -/
theorem c3_trailing_space_pushes_zero :
    (runLine 100 "5 " initPS).map (fun I => (I.state.stack, I.state.error)) =
      some ([0, 5], none)
    ∧ (readValue c3AfterFive).2 = some (Val.num 0) := by
  constructor
  · decide
  · decide

/-- C4 counterexample: interpreting `1 0 ? drop .` does not leave the
stack `1 0` and does not print `0 1 `: the `?` pops the zero (so the
stack is just `[1]`) and `.` prints `1 ` then a newline. -/
theorem c4_counterexample :
    (runLine 100 "1 0 ? drop ." initPS).map (fun I => (I.state.stack, I.state.out)) =
      some ([1], "1 \n")
    ∧ (runLine 100 "1 0 ? drop ." initPS).map (fun I => I.state.out) ≠ some "0 1 \n"
    ∧ (runLine 100 "1 0 ? drop ." initPS).map (fun I => I.state.stack) ≠ some [0, 1] := by
  refine ⟨by decide, by decide, by decide⟩

/-- C4 (amended): interpreting `1 0 ? drop .` gives this behaviour: the
`?` pops the zero and, seeing zero, ignores `drop`; the popped zero is
consumed, so the stack is then just `1`, and `.` prints `1 ` followed
by a newline, with no error. -/
theorem c4_skip_consumes_condition :
    (runLine 100 "1 0 ? drop ." initPS).map
      (fun I => (I.state.stack, I.state.out, I.state.error)) =
      some ([1], "1 \n", none) := by
  decide

/-- C5 counterexample: on the 64-bit hosted variant, `shl` with shift
count 32 (which is `< 64`) pushes 0, not `a << 32`: with `a = 1`,
`b = 32` the result is 0 and not `2^32`. -/
theorem c5_counterexample :
    runPrim PW.shl { initPS with stack := [32, 1] } = some { initPS with stack := [0] }
    ∧ (0 : Nat) ≠ 1 * 2 ^ 32 % W := by
  refine ⟨by decide, by decide⟩

/-- C5 (amended): on the 64-bit hosted variant the guard is hard-coded
at 32 (the 32-bit word size), not 64: for every stack `a` (under top)
and `b` (top), both `shl` and `shr` push zero whenever `b ≥ 32`, and
for `b < 32` `shl` pushes `a * 2^b mod 2^64` and `shr` pushes
`a / 2^b`. -/
theorem c5_shift_guard_is_32 : ∀ (st : PState) (a b : Nat) (s : List Nat),
    (32 ≤ b →
      runPrim PW.shl { st with stack := b :: a :: s } = some { st with stack := 0 :: s } ∧
      runPrim PW.shr { st with stack := b :: a :: s } = some { st with stack := 0 :: s }) ∧
    (b < 32 →
      runPrim PW.shl { st with stack := b :: a :: s } =
        some { st with stack := (a * 2 ^ b % W) :: s } ∧
      runPrim PW.shr { st with stack := b :: a :: s } =
        some { st with stack := (a / 2 ^ b) :: s }) := by
  intro st a b s
  constructor
  · intro h
    constructor <;> simp [runPrim, ge_iff_le, h]
  · intro h
    have h2 : ¬ b ≥ 32 := by omega
    constructor <;> simp [runPrim, h2]

/-- C5 witness: the amended theorem applied at `a = 1`, `b = 32`. -/
theorem c5_shift_guard_is_32_witness :
    (32 ≤ 32)
    ∧ runPrim PW.shl { initPS with stack := [32, 1] } = some { initPS with stack := [0] } :=
  ⟨le_refl 32, ((c5_shift_guard_is_32 initPS 1 32 []).1 (le_refl 32)).1⟩

/-- C6: the claim "a non-hex character after `hex` fails with an error
and pushes nothing" FAILS on the code: `parse_hex` accepts any letter
up to `z` / `Z` as a digit (the spec itself flags this as a source
bug), so `hex g` pushes 16 with no error instead of failing. -/
theorem c6_hex_accepts_g :
    (runLine 100 "hex g" initPS).map (fun I => (I.state.stack, I.state.error)) =
      some ([16], none) := by
  decide

/-- C7: entering `5 rep_and dup + .` from an empty stack latches the
underflow error `Error in `dup`: stack length should be >= 1` (the
text `stack length should be >= 1`, reported in `dup`): `rep_and`
compiles `dup` into a scratch region, pops the 5, and the first of the
five runs fails in `dup`; the error short-circuits the rest of the
line, so nothing is printed, the stack ends empty, and the scratch
region is truncated away. -/
theorem c7_rep_and_dup_underflow :
    (runLine 100 "5 rep_and dup + ." initPS).map
      (fun I => (I.state.error, I.state.stack, I.state.out, I.state.code)) =
      some (some "Error in `dup`: stack length should be >= 1", [], "", []) := by
  decide

/-- C8: for every stack with top `x`, executing `dup` and then `=`
succeeds and replaces `x` by `2^64 - 1`, whose signed view is `-1`
(boolean true). -/
theorem c8_dup_eq_yields_true : ∀ (st : PState) (x : Nat) (s : List Nat),
    (runPrim PW.dup { st with stack := x :: s }).bind (runPrim PW.eq) =
      some { st with stack := (W - 1) :: s }
    ∧ toSign (W - 1) = -1 := by
  intro st x s
  refine ⟨?_, by decide⟩
  simp [runPrim, Option.bind]

/-- C9: the `?` form pops without any stack-length guard: (1) the
interpret-mode handler on an empty stack has no defined result at any
fuel — in particular it latches no error; (2) the run-time `skip`
opcode likewise has no defined result when the stack holds fewer than
two words; (3) in contrast, every primitive has a defined result on
the empty stack (the popping ones latch their kind-specific error
first), and (4) `dup` specifically latches its underflow error. -/
theorem c9_skip_pops_unguarded :
    (∀ (f : Nat) (I : Interp), I.state.stack = [] → interpretSkipF f I = none)
    ∧ (∀ (f : Nat) (r : RunnerSt) (st : PState), st.stack.length < 2 →
        runRFF f RF.skip r st = none)
    ∧ (∀ (p : PW) (st : PState), st.stack = [] → (runPrim p st).isSome = true)
    ∧ (∀ (st : PState), st.stack = [] →
        runPrim PW.dup st = some (setErr st (underflowMsg "dup" "1"))) := by
  refine ⟨?_, ?_, ?_, ?_⟩
  · intro f I h
    cases f with
    | zero => rfl
    | succ f => simp [interpretSkipF, runStep, h]
  · intro f r st h
    cases f with
    | zero => rfl
    | succ f =>
      match hs : st.stack with
      | [] => simp [runRFF, runnerStep, hs]
      | [x] => simp [runRFF, runnerStep, hs]
      | x :: y :: t => rw [hs] at h; simp at h; omega
  · intro p st h
    cases p <;> simp [runPrim, h]
  · intro st h
    simp [runPrim, h]

/-- C9 witness: the three hypotheses discharged at concrete inputs. -/
theorem c9_skip_pops_unguarded_witness :
    interpretSkipF 5 emptyInterp = none
    ∧ runRFF 5 RF.skip (mkRunner 0 0) initPS = none
    ∧ (runPrim PW.dup initPS).isSome = true :=
  ⟨c9_skip_pops_unguarded.1 5 emptyInterp (by decide),
   c9_skip_pops_unguarded.2.1 5 (mkRunner 0 0) initPS (by decide),
   c9_skip_pops_unguarded.2.2.1 PW.dup initPS (by decide)⟩

/-- C10: `inc`, `dec`, `+` and `*` wrap modulo `2^64` and never report
an overflow error: `inc` and `dec` replace the top `a` by
`(a+1) mod 2^64` / `(a + 2^64 - 1) mod 2^64`, `+` and `*` replace the
top two by sum / product modulo `2^64`, and in particular `inc` on a
top of `2^64 - 1` succeeds and leaves 0. -/
theorem c10_arith_wraps :
    (∀ (st : PState) (a : Nat) (s : List Nat),
      runPrim PW.inc { st with stack := a :: s } =
        some { st with stack := ((a + 1) % W) :: s })
    ∧ (∀ (st : PState) (a : Nat) (s : List Nat),
      runPrim PW.dec { st with stack := a :: s } =
        some { st with stack := ((a + (W - 1)) % W) :: s })
    ∧ (∀ (st : PState) (a b : Nat) (s : List Nat),
      runPrim PW.add { st with stack := b :: a :: s } =
        some { st with stack := ((a + b) % W) :: s })
    ∧ (∀ (st : PState) (a b : Nat) (s : List Nat), a < W → b < W →
      runPrim PW.mul { st with stack := b :: a :: s } =
        some { st with stack := ((a * b) % W) :: s })
    ∧ (∀ (st : PState) (s : List Nat),
      runPrim PW.inc { st with stack := (W - 1) :: s } =
        some { st with stack := 0 :: s }) := by
  refine ⟨?_, ?_, ?_, ?_, ?_⟩
  · intro st a s; simp [runPrim]
  · intro st a s; simp [runPrim]
  · intro st a b s; simp [runPrim, Nat.add_comm]
  · intro st a b s _ _; simp [runPrim, toPos_mul, Nat.mul_comm]
  · intro st s
    simp [runPrim]
    decide

/-- C10 witness: the product hypotheses discharged at `a = 3`,
`b = 5`. -/
theorem c10_arith_wraps_witness :
    (3 : Nat) < W ∧ (5 : Nat) < W
    ∧ runPrim PW.mul { initPS with stack := [5, 3] } =
        some { initPS with stack := [3 * 5 % W] } :=
  ⟨by decide, by decide,
   c10_arith_wraps.2.2.2.1 initPS 3 5 [] (by decide) (by decide)⟩

/-- Helper: `get_word` only moves the scanner, never the program
state. -/
theorem getWord_state (I : Interp) : (I.getWord).state = I.state := by
  unfold Interp.getWord
  split <;> rfl

/-- Helper: latching an error leaves the code buffer unchanged. -/
theorem err_code (I : Interp) (m : String) : (I.err m).state.code = I.state.code := rfl

/-- Helper: `read_word_idx` leaves the code buffer unchanged. -/
theorem readWordIdx_code (I : Interp) : (readWordIdx I).1.state.code = I.state.code := by
  simp only [readWordIdx]
  generalize hJ : I.getWord = J
  have hg : J.state = I.state := by rw [← hJ]; exact getWord_state I
  split
  · simp [hg]
  · split <;> simp [hg]

/-- Helper: `read_primitive_idx` leaves the code buffer unchanged. -/
theorem readPrimIdx_code (I : Interp) : (readPrimIdx I).1.state.code = I.state.code := by
  simp only [readPrimIdx]
  generalize hJ : I.getWord = J
  have hg : J.state = I.state := by rw [← hJ]; exact getWord_state I
  split
  · simp [hg]
  · split <;> simp [hg]

/-- Helper: `read_syntax_idx` leaves the code buffer unchanged. -/
theorem readSCIdx_code (I : Interp) : (readSCIdx I).1.state.code = I.state.code := by
  simp only [readSCIdx]
  generalize hJ : I.getWord = J
  have hg : J.state = I.state := by rw [← hJ]; exact getWord_state I
  split
  · simp [hg]
  · split <;> simp [hg]

/-- Helper: `read_number` leaves the code buffer unchanged. -/
theorem readNumber_code (I : Interp) : (readNumber I).1.state.code = I.state.code := by
  simp only [readNumber]
  generalize hJ : I.getWord = J
  have hg : J.state = I.state := by rw [← hJ]; exact getWord_state I
  split <;> simp [Interp.err, setErr, hg]

/-- Helper: `read_value` leaves the code buffer unchanged. -/
theorem readValue_code (I : Interp) : (readValue I).1.state.code = I.state.code := by
  unfold readValue
  split
  · rename_i I1 i h
    have := readWordIdx_code I
    rw [h] at this
    exact this
  · rename_i I1 hw
    have h1 := readWordIdx_code I
    rw [hw] at h1
    split
    · rename_i I2 p h
      have := readPrimIdx_code I1
      rw [h] at this
      rw [this, h1]
    · rename_i I2 hp
      have h2 := readPrimIdx_code I1
      rw [hp] at h2
      split
      · rename_i I3 sc h
        have := readSCIdx_code I2
        rw [h] at this
        rw [this, h2, h1]
      · rename_i I3 hs
        have h3 := readSCIdx_code I2
        rw [hs] at h3
        split
        · rename_i I4 n h
          have := readNumber_code I3
          rw [h] at this
          rw [this, h3, h2, h1]
        · rename_i I4 hn
          have h4 := readNumber_code I3
          rw [hn] at h4
          simp only [Interp.err, setErr]
          rw [h4, h3, h2, h1]

/-- Helper: setting the handled flag leaves the program state. -/
theorem handledTrue_state (I : Interp) :
    ({ I with handled := true } : Interp).state = I.state := rfl

/-- Helper: the `parse_string` token loop leaves the code buffer
unchanged. -/
theorem parseStringLoop_code : ∀ (f : Nat) (I : Interp) (e : Nat) (I' : Interp) (e' : Nat),
    parseStringLoop f I e = some (I', e') → I'.state.code = I.state.code := by
  intro f
  induction f with
  | zero => intro I e I' e' h; simp [parseStringLoop] at h
  | succ f ih =>
    intro I e I' e' h
    simp only [parseStringLoop] at h
    split at h
    · simp only [Option.some.injEq, Prod.mk.injEq] at h
      obtain ⟨h1, h2⟩ := h
      subst h1
      simp [getWord_state]
    · split at h
      · simp only [Option.some.injEq, Prod.mk.injEq] at h
        obtain ⟨h1, h2⟩ := h
        subst h1
        simp [Interp.err, setErr, getWord_state]
      · rw [ih _ _ _ _ h]
        simp [getWord_state]

/-- Helper: `parse_string` leaves the code buffer unchanged. -/
theorem parseString_code : ∀ (f : Nat) (I I' : Interp) (sv : StrVal),
    parseString f I = some (I', sv) → I'.state.code = I.state.code := by
  intro f I I' sv h
  simp only [parseString] at h
  split at h
  · cases h
  · rename_i I1 e hloop
    simp only [Option.some.injEq, Prod.mk.injEq] at h
    obtain ⟨h1, h2⟩ := h
    subst h1
    rw [parseStringLoop_code _ _ _ _ _ hloop]
    simp [getWord_state]

/-- Helper: `parse_hex` leaves the code buffer unchanged. -/
theorem parseHex_code (I : Interp) : (parseHex I).1.state.code = I.state.code := by
  simp only [parseHex]
  split
  · simp [Interp.err, setErr, getWord_state]
  · split
    · simp [Interp.err, setErr, getWord_state]
    · split <;> simp [Interp.err, setErr, getWord_state]

/-- Helper: `parse_short_str` leaves the code buffer unchanged. -/
theorem parseShortStr_code (I : Interp) : (parseShortStr I).1.state.code = I.state.code := by
  simp only [parseShortStr]
  split
  · simp [Interp.err, setErr, getWord_state]
  · split <;> simp [Interp.err, setErr, getWord_state]

/-- Helper: `ignore_comment` leaves the code buffer unchanged. -/
theorem ignoreComment_code : ∀ (f : Nat) (I I' : Interp),
    ignoreComment f I = some I' → I'.state.code = I.state.code := by
  intro f
  induction f with
  | zero => intro I I' h; simp [ignoreComment] at h
  | succ f ih =>
    intro I I' h
    simp only [ignoreComment] at h
    split at h
    · simp only [Option.some.injEq] at h
      subst h
      simp [getWord_state]
    · split at h
      · simp only [Option.some.injEq] at h
        subst h
        simp [Interp.err, setErr, getWord_state]
      · rw [ih _ _ h]
        simp [getWord_state]

/-- Helper: a failed compile restored the buffer. -/
theorem codeSpec_noneI {c : List Val} : CodeSpec c c none := rfl

/-- Helper: appending cells satisfies the count specification with the
`length - start_len` form used by the handlers. -/
theorem codeSpec_append_sub (c l : List Val) :
    CodeSpec c (c ++ l) (some ((c ++ l).length - c.length)) := by
  constructor
  · simp
  · simp [List.take_left]

/-- Helper: appending a known number of cells. -/
theorem codeSpec_append (c l : List Val) (n : Nat) (h : n = l.length) :
    CodeSpec c (c ++ l) (some n) := by
  subst h
  constructor
  · simp
  · simp [List.take_left]

/-- Helper: an overwrite at or past the taken prefix does not change
the prefix. -/
theorem take_set_of_le (l : List Val) (i n : Nat) (v : Val) (h : n ≤ i) :
    (l.set i v).take n = l.take n := by
  induction l generalizing i n with
  | nil => simp
  | cons a t ih =>
    cases i with
    | zero =>
      cases n with
      | zero => simp
      | succ n => omega
    | succ i =>
      cases n with
      | zero => simp
      | succ n => simp [List.set, ih i n (by omega)]

/-- Helper: pushing one cell appends it. -/
theorem pushCode_code (I : Interp) (v : Val) :
    (pushCode I v).state.code = I.state.code ++ [v] := rfl

/-- Helper: a successful nested compile between the two emitted cells
of `compile_skip` / `compile_rep_and` yields the backpatched
specification `k + 2`. -/
theorem codeSpec_backpatch (c c2 : List Val) (x y w : Val) (k : Nat)
    (h : CodeSpec (c ++ [x] ++ [y]) c2 (some k)) :
    CodeSpec c (c2.set c.length w) (some (k + 2)) := by
  obtain ⟨hlen, hpre⟩ := h
  simp only [List.length_append, List.length_cons, List.length_nil] at hlen
  constructor
  · simp only [List.length_set]
    omega
  · rw [take_set_of_le _ _ _ _ (le_refl c.length)]
    have h1 : c2.take c.length = (c2.take (c ++ [x] ++ [y]).length).take c.length := by
      rw [List.take_take]
      congr 1
      simp only [List.length_append, List.length_cons, List.length_nil]
      omega
    rw [h1, hpre, List.append_assoc, List.take_left]

/-- Helper: appending one more cell after a successful compile. -/
theorem codeSpec_snoc (c c1 : List Val) (v : Val) (k : Nat)
    (h : CodeSpec c c1 (some k)) : CodeSpec c (c1 ++ [v]) (some (k + 1)) := by
  obtain ⟨hlen, hpre⟩ := h
  constructor
  · simp [hlen]
    omega
  · rw [List.take_append_of_le_length (by omega), hpre]

/-- Helper: `compile_hex` appends exactly the count it reports. -/
theorem compileHex_spec (I I' : Interp) (r : Option Nat)
    (h : compileHex I = (I', r)) : CodeSpec I.state.code I'.state.code r := by
  simp only [compileHex] at h
  split at h
  · simp only [Prod.mk.injEq] at h
    obtain ⟨h1, h2⟩ := h
    subst h1
    subst h2
    show _ = _
    exact parseHex_code I
  · simp only [Prod.mk.injEq] at h
    obtain ⟨h1, h2⟩ := h
    subst h1
    subst h2
    rw [pushCode_code, parseHex_code I]
    exact codeSpec_append _ _ 1 (by simp)

/-- Helper: `compile_short_str` appends exactly the count it
reports. -/
theorem compileShortStr_spec (I I' : Interp) (r : Option Nat)
    (h : compileShortStr I = (I', r)) : CodeSpec I.state.code I'.state.code r := by
  simp only [compileShortStr] at h
  split at h
  · simp only [Prod.mk.injEq] at h
    obtain ⟨h1, h2⟩ := h
    subst h1
    subst h2
    show _ = _
    exact parseShortStr_code I
  · simp only [Prod.mk.injEq] at h
    obtain ⟨h1, h2⟩ := h
    subst h1
    subst h2
    rw [pushCode_code, parseShortStr_code I]
    exact codeSpec_append _ _ 1 (by simp)

/-- Helper: `compile_string` appends exactly the count it reports. -/
theorem compileString_spec (f : Nat) (I I' : Interp) (r : Option Nat)
    (h : compileString f I = some (I', r)) : CodeSpec I.state.code I'.state.code r := by
  simp only [compileString] at h
  split at h
  · cases h
  · rename_i I1 sv hps
    have hc : I1.state.code = I.state.code := parseString_code f I I1 sv hps
    split at h
    · simp only [Option.some.injEq, Prod.mk.injEq] at h
      obtain ⟨h1, h2⟩ := h
      subst h1
      subst h2
      exact hc
    · simp only [Option.some.injEq, Prod.mk.injEq] at h
      obtain ⟨h1, h2⟩ := h
      subst h1
      subst h2
      rw [← hc, List.append_assoc]
      exact codeSpec_append_sub _ _

/-- Helper: `compile_help` appends exactly the count it reports. -/
theorem compileHelp_spec (I0 I' : Interp) (r : Option Nat)
    (h : compileHelp I0 = some (I', r)) : CodeSpec I0.state.code I'.state.code r := by
  simp only [compileHelp] at h
  have hg : (I0.getWord).state.code = I0.state.code := congrArg PState.code (getWord_state I0)
  split at h
  · simp only [Option.some.injEq, Prod.mk.injEq] at h
    obtain ⟨h1, h2⟩ := h
    subst h1
    subst h2
    show _ = _
    rw [err_code, hg]
  · split at h
    · rename_i I1 hv
      simp only [Option.some.injEq, Prod.mk.injEq] at h
      obtain ⟨h1, h2⟩ := h
      subst h1
      subst h2
      show _ = _
      rw [err_code, show I1 = (readValue I0.getWord).1 from by rw [hv], readValue_code, hg]
    · rename_i I1 v hv
      have hI1 : I1.state.code = I0.state.code := by
        rw [show I1 = (readValue I0.getWord).1 from by rw [hv], readValue_code, hg]
      split at h
      · split at h
        · simp only [Option.some.injEq, Prod.mk.injEq] at h
          obtain ⟨h1, h2⟩ := h
          subst h1
          subst h2
          rw [hg, ← hI1]
          exact codeSpec_append_sub _ _
        · cases h
      · simp only [Option.some.injEq, Prod.mk.injEq] at h
        obtain ⟨h1, h2⟩ := h
        subst h1
        subst h2
        rw [hg, ← hI1]
        exact codeSpec_append_sub _ _
      · simp only [Option.some.injEq, Prod.mk.injEq] at h
        obtain ⟨h1, h2⟩ := h
        subst h1
        subst h2
        rw [hg, ← hI1]
        exact codeSpec_append_sub _ _
      · simp only [Option.some.injEq, Prod.mk.injEq] at h
        obtain ⟨h1, h2⟩ := h
        subst h1
        subst h2
        rw [hg, ← hI1]
        exact codeSpec_append_sub _ _
      · cases h
      · cases h

/-- Helper: `compile_def` appends exactly the count it reports. -/
theorem compileDef_spec (I0 I' : Interp) (r : Option Nat)
    (h : compileDef I0 = some (I', r)) : CodeSpec I0.state.code I'.state.code r := by
  simp only [compileDef] at h
  have hg : (I0.getWord).state.code = I0.state.code := congrArg PState.code (getWord_state I0)
  split at h
  · simp only [Option.some.injEq, Prod.mk.injEq] at h
    obtain ⟨h1, h2⟩ := h
    subst h1
    subst h2
    show _ = _
    rw [err_code, hg]
  · split at h
    · rename_i I1 hv
      simp only [Option.some.injEq, Prod.mk.injEq] at h
      obtain ⟨h1, h2⟩ := h
      subst h1
      subst h2
      show _ = _
      rw [err_code, show I1 = (readValue I0.getWord).1 from by rw [hv], readValue_code, hg]
    · rename_i I1 v hv
      have hI1 : I1.state.code = I0.state.code := by
        rw [show I1 = (readValue I0.getWord).1 from by rw [hv], readValue_code, hg]
      split at h
      · simp only [Option.some.injEq, Prod.mk.injEq] at h
        obtain ⟨h1, h2⟩ := h
        subst h1
        subst h2
        rw [hg, ← hI1]
        exact codeSpec_append_sub _ _
      · simp only [Option.some.injEq, Prod.mk.injEq] at h
        obtain ⟨h1, h2⟩ := h
        subst h1
        subst h2
        rw [hg, ← hI1]
        exact codeSpec_append_sub _ _
      · simp only [Option.some.injEq, Prod.mk.injEq] at h
        obtain ⟨h1, h2⟩ := h
        subst h1
        subst h2
        rw [hg, ← hI1]
        exact codeSpec_append_sub _ _
      · simp only [Option.some.injEq, Prod.mk.injEq] at h
        obtain ⟨h1, h2⟩ := h
        subst h1
        subst h2
        rw [hg, ← hI1]
        exact codeSpec_append_sub _ _
      · cases h
      · cases h

/-- Helper: `finishBlock` on a state with a latched error truncates and
fails. -/
theorem finishBlock_isSome (I : Interp) (L t : Nat)
    (h : I.state.error.isSome = true) :
    finishBlock I L t = some ({ I with state := truncCode I.state L }, none) := by
  simp [finishBlock, h]

/-- Helper: `finishBlock` right after latching an error truncates and
fails. -/
theorem finishBlock_err (I : Interp) (m : String) (L t : Nat) :
    finishBlock (I.err m) L t =
      some ({ I.err m with state := truncCode (I.err m).state L }, none) := rfl

/-- The central compile-mode invariant: every call of the compile group
satisfies its code-buffer specification — a reported count of `n`
means the buffer grew by exactly `n` appended cells, and a failed
compile left the buffer exactly as found (the `compile_block` loop
satisfies the accumulated version). Proved by induction on the fuel. -/
theorem compileStep_codeSpec :
    ∀ (f : Nat) (call : CompCall) (I' : Interp) (r : Option Nat),
      compileStep f call = some (I', r) → CompCallSpec call I' r := by
  intro f
  induction f with
  | zero => intro call I' r h; simp [compileStep] at h
  | succ f ih =>
    intro call I' r h
    cases call with
    | next I =>
      simp only [compileStep] at h
      split at h
      · rename_i I1 hv
        simp only [Option.some.injEq, Prod.mk.injEq] at h
        obtain ⟨h1, h2⟩ := h
        subst h1
        subst h2
        simp only [CompCallSpec, CodeSpec]
        rw [show I1 = (readValue I).1 from by rw [hv], readValue_code]
      · rename_i I1 v hv
        have hI1 : I1.state.code = I.state.code := by
          rw [show I1 = (readValue I).1 from by rw [hv], readValue_code]
        have hs := ih (.value v I1) I' r h
        simp only [CompCallSpec] at hs ⊢
        rw [← hI1]
        exact hs
    | value v I =>
      simp only [compileStep] at h
      split at h
      · rename_i i
        split at h
        · simp only [Option.some.injEq, Prod.mk.injEq] at h
          obtain ⟨h1, h2⟩ := h
          subst h1
          subst h2
          simp only [CompCallSpec]
          rw [pushCode_code]
          exact codeSpec_append _ _ 1 (by simp)
        · cases h
      · simp only [Option.some.injEq, Prod.mk.injEq] at h
        obtain ⟨h1, h2⟩ := h
        subst h1
        subst h2
        simp only [CompCallSpec]
        rw [pushCode_code]
        exact codeSpec_append _ _ 1 (by simp)
      · simp only [Option.some.injEq, Prod.mk.injEq] at h
        obtain ⟨h1, h2⟩ := h
        subst h1
        subst h2
        simp only [CompCallSpec]
        rw [pushCode_code]
        exact codeSpec_append _ _ 1 (by simp)
      · simp only [Option.some.injEq, Prod.mk.injEq] at h
        obtain ⟨h1, h2⟩ := h
        subst h1
        subst h2
        simp only [CompCallSpec]
        rw [pushCode_code]
        exact codeSpec_append _ _ 1 (by simp)
      · simp only [Option.some.injEq, Prod.mk.injEq] at h
        obtain ⟨h1, h2⟩ := h
        subst h1
        subst h2
        simp only [CompCallSpec, CodeSpec]
        exact err_code I _
      · exact ih (.syn _ I) I' r h
    | syn sc I =>
      simp only [compileStep] at h
      split at h
      · exact compileString_spec f I I' r h
      · simp only [Option.some.injEq] at h
        simp only [CompCallSpec]
        exact compileHex_spec I I' r (by rw [h])
      · simp only [Option.some.injEq] at h
        simp only [CompCallSpec]
        exact compileShortStr_spec I I' r (by rw [h])
      · exact compileHelp_spec I I' r h
      · exact compileDef_spec I I' r h
      · simp only [CompCallSpec]
        rcases hic : ignoreComment f I with _ | I1
        · rw [hic] at h
          cases h
        · rw [hic] at h
          simp only [Option.map_some', Option.some.injEq, Prod.mk.injEq] at h
          obtain ⟨h1, h2⟩ := h
          subst h1
          subst h2
          constructor
          · simp [ignoreComment_code f I I1 hic]
          · rw [ignoreComment_code f I I1 hic, List.take_length]
      · simp only [Option.some.injEq, Prod.mk.injEq] at h
        obtain ⟨h1, h2⟩ := h
        subst h1
        subst h2
        simp only [CompCallSpec]
        rw [pushCode_code]
        exact codeSpec_append _ _ 1 (by simp)
      · simp only [Option.some.injEq, Prod.mk.injEq] at h
        obtain ⟨h1, h2⟩ := h
        subst h1
        subst h2
        simp only [CompCallSpec]
        rw [pushCode_code]
        exact codeSpec_append _ _ 1 (by simp)
      · exact ih (.skip I) I' r h
      · simp only [Option.some.injEq, Prod.mk.injEq] at h
        obtain ⟨h1, h2⟩ := h
        subst h1
        subst h2
        simp only [CompCallSpec, CodeSpec]
        exact err_code I _
      · exact ih (.repAnd I) I' r h
      · exact ih (.rep I) I' r h
      · exact ih (.block I) I' r h
    | skip I =>
      simp only [compileStep] at h
      split at h
      · rename_i I2 k hin
        simp only [Option.some.injEq, Prod.mk.injEq] at h
        obtain ⟨h1, h2⟩ := h
        subst h1
        subst h2
        have hs := ih (.next (pushCode (pushCode I (.num 0)) (.rf .skip))) I2 (some k) hin
        simp only [CompCallSpec, pushCode_code] at hs
        simp only [CompCallSpec]
        exact codeSpec_backpatch _ _ _ _ _ _ hs
      · cases h
      · cases h
    | repAnd I =>
      simp only [compileStep] at h
      split at h
      · rename_i I2 k hin
        simp only [Option.some.injEq, Prod.mk.injEq] at h
        obtain ⟨h1, h2⟩ := h
        subst h1
        subst h2
        have hs := ih (.next (pushCode (pushCode I (.num 0)) (.rf .repAnd))) I2 (some k) hin
        simp only [CompCallSpec, pushCode_code] at hs
        simp only [CompCallSpec]
        exact codeSpec_backpatch _ _ _ _ _ _ hs
      · cases h
      · cases h
    | rep I =>
      simp only [compileStep] at h
      split at h
      · rename_i I1 k hin
        simp only [Option.some.injEq, Prod.mk.injEq] at h
        obtain ⟨h1, h2⟩ := h
        subst h1
        subst h2
        have hs := ih (.repAnd I) I1 (some k) hin
        simp only [CompCallSpec] at hs
        simp only [CompCallSpec]
        rw [pushCode_code]
        exact codeSpec_snoc _ _ _ _ hs
      · rename_i I1 hin
        simp only [Option.some.injEq, Prod.mk.injEq] at h
        obtain ⟨h1, h2⟩ := h
        subst h1
        subst h2
        have hs := ih (.repAnd I) I1 none hin
        simp only [CompCallSpec] at hs
        simp only [CompCallSpec]
        exact hs
      · cases h
    | block I =>
      simp only [compileStep] at h
      have hs := ih (.blockLoop I I.state.code.length 0) I' r h
      simp only [CompCallSpec] at hs
      obtain ⟨hnone, hsome⟩ := hs (le_refl _)
      simp only [CompCallSpec]
      cases r with
      | none =>
        show _ = _
        rw [hnone rfl, List.take_length]
      | some n =>
        obtain ⟨hlen, hpre⟩ := hsome n rfl
        exact ⟨by omega, hpre⟩
    | blockLoop I0 L t =>
      show CompCallSpec _ _ _
      simp only [CompCallSpec]
      intro hL
      simp only [compileStep] at h
      have hg : (I0.getWord).state.code = I0.state.code :=
        congrArg PState.code (getWord_state I0)
      have hgl : (I0.getWord).state.code.length = I0.state.code.length :=
        congrArg List.length hg
      split at h
      · simp only [finishBlock] at h
        split at h
        · simp only [Option.some.injEq, Prod.mk.injEq] at h
          obtain ⟨h1, h2⟩ := h
          subst h1
          subst h2
          constructor
          · intro _
            exact congrArg (fun c => List.take L c) hg
          · intro n hn
            cases hn
        · simp only [Option.some.injEq, Prod.mk.injEq] at h
          obtain ⟨h1, h2⟩ := h
          subst h1
          subst h2
          constructor
          · intro hc
            cases hc
          · intro n hn
            cases hn
            refine ⟨by rw [hg], by rw [hg, List.take_length]⟩
      · split at h
        · rw [finishBlock_err] at h
          simp only [Option.some.injEq, Prod.mk.injEq] at h
          obtain ⟨h1, h2⟩ := h
          subst h1
          subst h2
          constructor
          · intro _
            exact congrArg (fun c => List.take L c) hg
          · intro n hn
            cases hn
        · split at h
          · rename_i I1 k hin
            have hnext := ih (.next I0.getWord) I1 (some k) hin
            simp only [CompCallSpec] at hnext
            obtain ⟨hlen1, hpre1⟩ := hnext
            have hbl := ih (.blockLoop I1 L (t + k)) I' r h
            simp only [CompCallSpec] at hbl
            obtain ⟨hnone, hsome⟩ := hbl (by rw [hlen1, hg]; omega)
            constructor
            · intro hr
              rw [hnone hr]
              have hstep : I1.state.code.take L =
                  (I1.state.code.take (I0.getWord).state.code.length).take L := by
                rw [List.take_take]
                congr 1
                omega
              rw [hstep, hpre1, hg]
            · intro n hn
              obtain ⟨hlen2, hpre2⟩ := hsome n hn
              constructor
              · rw [← hg]
                omega
              · have hstep : I'.state.code.take I0.state.code.length =
                    (I'.state.code.take I1.state.code.length).take I0.state.code.length := by
                  rw [List.take_take]
                  congr 1
                  rw [hlen1, hg]
                  omega
                rw [hstep, hpre2, ← hg]
                exact hpre1
          · rename_i I1 hin
            have hnext := ih (.next I0.getWord) I1 none hin
            simp only [CompCallSpec, CodeSpec] at hnext
            split at h
            · rename_i herr
              rw [finishBlock_isSome I1 L t herr] at h
              simp only [Option.some.injEq, Prod.mk.injEq] at h
              obtain ⟨h1, h2⟩ := h
              subst h1
              subst h2
              constructor
              · intro _
                show I1.state.code.take L = _
                rw [hnext, hg]
              · intro n hn
                cases hn
            · rw [finishBlock_err] at h
              simp only [Option.some.injEq, Prod.mk.injEq] at h
              obtain ⟨h1, h2⟩ := h
              subst h1
              subst h2
              constructor
              · intro _
                show I1.state.code.take L = _
                rw [hnext, hg]
              · intro n hn
                cases hn
          · cases h

/-- C2: for every syntax form `sc`, every fuel and every interpreter
state, whenever the form's compile handler returns a count `n`,
exactly `n` cells were appended to the code buffer during that call:
the buffer's length grew by exactly `n` and the cells already present
at entry are an unchanged prefix, so enclosing forms (`?`, `rep`,
`rep_and`, `[ ... ]`) can rely on the reported length to delimit the
emitted fragment. -/
theorem c2_compile_reports_exact_count :
    ∀ (sc : SC) (f : Nat) (I I' : Interp) (n : Nat),
      compileSynF f sc I = some (I', some n) →
      I'.state.code.length = I.state.code.length + n
      ∧ I'.state.code.take I.state.code.length = I.state.code := by
  intro sc f I I' n h
  simp only [compileSynF] at h
  exact compileStep_codeSpec f (.syn sc I) I' (some n) h

/-- C2 witness: the `rec` compile handler at a concrete state reports
1 and appended exactly 1 cell. -/
theorem c2_compile_reports_exact_count_witness :
    compileSynF 1 SC.recf emptyInterp =
      some (pushCode emptyInterp (.rf .recurse), some 1)
    ∧ (pushCode emptyInterp (.rf .recurse)).state.code.length =
        emptyInterp.state.code.length + 1 :=
  ⟨by decide,
   (c2_compile_reports_exact_count SC.recf 1 emptyInterp
      (pushCode emptyInterp (.rf .recurse)) 1 (by decide)).1⟩

end Mieliepit
